import Mathlib

/-!
Shallow embedding of the self-curated registry server (src/server.js).

The server keeps two in-memory JavaScript Map collections, `projects` and
`signals`, both keyed by string identifiers and iterated in insertion order.
We model each Map as an insertion-ordered association list `KMap`.  Request
bodies are JSON objects; an `Option` field value `none` models an absent
(undefined) field.  JavaScript truthiness on string fields (absent or the
empty string is falsy) is modelled by `truthyS`.  Numeric request inputs go
through JavaScript `parseInt`, whose outcome we model as
`Option (Option Int)`: `none` is an absent (or, where truthiness is tested
first, falsy) input, `some none` is a present input that parses to NaN, and
`some (some n)` is a present input parsing to the integer `n`.

The external library predicate `ethers.isAddress` is not part of this
repository; handlers take it as an explicit function parameter
`isAddr : String → Bool`.  Identifier generation (`uuidv4`) is modelled by
passing the generated identifier as an explicit `fid` argument; the
transition relation `Step` assumes the generated identifier is fresh.
`Date.now()` is passed as an explicit `now : Int` argument.

Each mutating handler returns `Except ErrResp α × RegState`: the response
(either an error with its HTTP status, or the success payload) together with
the state of the two stores after the request.  In the source every error
response returns before any store mutation, so error results are paired with
the unchanged input state.
-/

/-- JavaScript truthiness of a possibly-absent string: absent (`undefined`)
and the empty string are falsy; any other string is truthy. -/
def truthyS : Option String → Option String
  | some s => if s = "" then none else some s
  | none => none

/-- JavaScript `x || y` on possibly-absent strings: the first operand when it
is truthy, otherwise the second operand. -/
def jsOrS (x y : Option String) : Option String :=
  match truthyS x with
  | some s => some s
  | none => y

/-- JavaScript `parseInt(x) || d`: the parsed integer when the input is
present and parses to a nonzero integer, otherwise the default `d`
(covering an absent input, a NaN parse, and a zero parse). -/
def parsedOr (v : Option (Option Int)) (d : Int) : Int :=
  match v with
  | some (some n) => if n = 0 then d else n
  | _ => d

/-- ECMAScript `Array.prototype.slice(s, e)` on a list, with possibly
negative integer arguments counting from the end. -/
def jsSlice (l : List α) (s e : Int) : List α :=
  let len : Int := l.length
  let s2 := if s < 0 then max (len + s) 0 else min s len
  let e2 := if e < 0 then max (len + e) 0 else min e len
  (l.drop s2.toNat).take (e2 - s2).toNat

/-- Containment of `sml` as a contiguous run inside `big`. -/
def hasSub (big sml : List Char) : Bool :=
  match big with
  | [] => sml.isEmpty
  | _ :: t => sml.isPrefixOf big || hasSub t sml

/-- JavaScript `s.includes(sub)`: substring containment. -/
def includesS (s sub : String) : Bool :=
  hasSub s.data sub.data

/-- JavaScript `s.toLowerCase()` on the character list (structural, so that
concrete states evaluate; agrees with ASCII lowercasing). -/
def jsToLower (s : String) : String := ⟨s.data.map Char.toLower⟩

/-- Stable insertion of `x` into `l`: `x` goes before the first element `y`
with `le x y`, so equal elements keep their original relative order. -/
def jsInsert (le : α → α → Bool) (x : α) : List α → List α
  | [] => [x]
  | y :: ys => if le x y then x :: y :: ys else y :: jsInsert le x ys

/-- Stable sort by the boolean relation `le` (insertion sort).  JavaScript
`Array.prototype.sort` with a consistent comparator is specified to produce
exactly the stable order, which this computes. -/
def jsSortBy (le : α → α → Bool) : List α → List α
  | [] => []
  | x :: xs => jsInsert le x (jsSortBy le xs)

instance instDecEqExcept {ε α : Type} [DecidableEq ε] [DecidableEq α] :
    DecidableEq (Except ε α) := fun a b =>
  match a, b with
  | .error e1, .error e2 =>
    if h : e1 = e2 then .isTrue (by rw [h]) else .isFalse (fun hc => h (Except.error.inj hc))
  | .ok a1, .ok a2 =>
    if h : a1 = a2 then .isTrue (by rw [h]) else .isFalse (fun hc => h (Except.ok.inj hc))
  | .error e1, .ok a2 => .isFalse (fun hc => Except.noConfusion hc)
  | .ok a1, .error e2 => .isFalse (fun hc => Except.noConfusion hc)

/-- Insertion-ordered association list modelling a JavaScript `Map` with
string keys. -/
abbrev KMap (α : Type) := List (String × α)

/-- JavaScript `map.get(k)`. -/
def mapGet (m : KMap α) (k : String) : Option α :=
  (m.find? (fun kv => kv.1 == k)).map (·.2)

/-- JavaScript `map.set(k, v)`: replaces the value in place when the key is
present (keeping insertion order), otherwise appends a new entry. -/
def mapSet (m : KMap α) (k : String) (v : α) : KMap α :=
  if m.any (fun kv => kv.1 == k) then
    m.map (fun kv => if kv.1 == k then (k, v) else kv)
  else m ++ [(k, v)]

/-- JavaScript `map.delete(k)`. -/
def mapDelete (m : KMap α) (k : String) : KMap α :=
  m.filter (fun kv => !(kv.1 == k))

/-- JavaScript `Array.from(map.values())`: the values in insertion order. -/
def values (m : KMap α) : List α :=
  m.map (·.2)

/-- A registered project record (src/server.js lines 93 to 106). -/
structure Project where
  id : String
  name : String
  description : String
  url : Option String
  logo : Option String
  category : String
  tags : List String
  owner : String
  supportCount : Int
  totalSignal : Int
  createdAt : Int
  updatedAt : Int
deriving Repr, DecidableEq

/-- A support signal record (src/server.js lines 269 to 276); `updatedAt` is
only present after the repeat-signal path ran. -/
structure Signal where
  id : String
  projectId : String
  address : String
  amount : Int
  message : Option String
  createdAt : Int
  updatedAt : Option Int
deriving Repr, DecidableEq

/-- An error response: HTTP status code and error message. -/
structure ErrResp where
  status : Nat
  error : String
deriving Repr, DecidableEq

/-- The two in-memory stores (src/server.js lines 19 to 20). -/
structure RegState where
  projects : KMap Project
  signals : KMap Signal
deriving Repr, DecidableEq

/-- The fixed category set (src/server.js line 21). -/
def categoriesList : List String :=
  ["public-goods", "defi", "nft", "social", "infrastructure", "tooling", "other"]

/-- Request body of POST /projects.  The trailing fields are the alternative
address-bearing fields read by the whitelist gate. -/
structure CreateBody where
  name : Option String
  description : Option String
  url : Option String
  category : Option String
  owner : Option String
  logo : Option String
  tags : Option (List String)
  address : Option String
  creator : Option String
  participant : Option String
  sender : Option String
  «from» : Option String

/-- Request body of PUT /projects/:id. -/
structure UpdateBody where
  name : Option String
  description : Option String
  url : Option String
  category : Option String
  logo : Option String
  tags : Option (List String)
  owner : Option String

/-- Request body of DELETE /projects/:id. -/
structure DeleteBody where
  owner : Option String

/-- Request body of POST /projects/:id/signal. -/
structure SignalBody where
  address : Option String
  amount : Option (Option Int)
  message : Option String

/-- Request body of DELETE /projects/:id/signal. -/
structure RemoveBody where
  address : Option String

/-- Query parameters of GET /projects. -/
structure ListQuery where
  category : Option String
  tag : Option String
  minSupport : Option (Option Int)
  sort : Option String
  limit : Option (Option Int)
  offset : Option (Option Int)

/-- Response of GET /projects (src/server.js lines 153 to 158). -/
structure ListResp where
  projects : List Project
  total : Int
  offset : Int
  limit : Int
deriving Repr, DecidableEq

/-- Trimmed project summary returned by the signal route. -/
structure ProjSummary where
  id : String
  name : String
  supportCount : Int
  totalSignal : Int
deriving Repr, DecidableEq

/-- Success response of POST /projects/:id/signal, with its HTTP status
(201 for a new signal, 200 for an accumulated one). -/
structure SignalResp where
  status : Nat
  signal : Signal
  project : ProjSummary
deriving Repr, DecidableEq

/-- A signal annotated with the referenced project (GET /supporters). -/
structure AnnSignal where
  sig : Signal
  projectName : Option String
  projectCategory : Option String
deriving Repr, DecidableEq

/-- Response of GET /supporters/:address. -/
structure SupportersResp where
  address : String
  projectsSupported : Int
  totalSignal : Int
  signals : List AnnSignal
deriving Repr, DecidableEq

/-- Handler for POST /projects (src/server.js lines 70 to 112), after the
whitelist gate. -/
def createProject (isAddr : String → Bool) (st : RegState) (fid : String)
    (now : Int) (body : CreateBody) : Except ErrResp Project × RegState :=
  match truthyS body.name, truthyS body.owner with
  | some nm, some owner =>
    if !(isAddr owner) then (.error ⟨400, "Invalid owner address"⟩, st)
    else
      let projectCategory := match body.category with
        | some c => if categoriesList.contains c then c else "other"
        | none => "other"
      let project : Project := {
        id := fid,
        name := nm,
        description := (truthyS body.description).getD "",
        url := truthyS body.url,
        logo := truthyS body.logo,
        category := projectCategory,
        tags := match body.tags with | some ts => jsSlice ts 0 10 | none => [],
        owner := jsToLower owner,
        supportCount := 0,
        totalSignal := 0,
        createdAt := now,
        updatedAt := now }
      (.ok project, { st with projects := mapSet st.projects project.id project })
  | _, _ => (.error ⟨400, "name and owner address required"⟩, st)

/-- Sorting step of GET /projects (src/server.js lines 132 to 145): a stable
sort by the selected comparator, default newest first. -/
def sortResults (sortQ : Option String) (l : List Project) : List Project :=
  match sortQ with
  | some "support" => jsSortBy (fun a b => decide (b.supportCount ≤ a.supportCount)) l
  | some "signal" => jsSortBy (fun a b => decide (b.totalSignal ≤ a.totalSignal)) l
  | some "oldest" => jsSortBy (fun a b => decide (a.createdAt ≤ b.createdAt)) l
  | _ => jsSortBy (fun a b => decide (b.createdAt ≤ a.createdAt)) l

/-- Filter stage of GET /projects (src/server.js lines 119 to 129): exact
category match, tag membership against the lowercased query, then minimum
support threshold (a NaN threshold filters everything out, since every
comparison against NaN is false). -/
def listFiltered (st : RegState) (q : ListQuery) : List Project :=
  let results0 := values st.projects
  let results1 := match truthyS q.category with
    | some c => results0.filter (fun p => p.category == c)
    | none => results0
  let results2 := match truthyS q.tag with
    | some t => results1.filter (fun p => p.tags.contains (jsToLower t))
    | none => results1
  match q.minSupport with
  | some (some mn) => results2.filter (fun p => decide (mn ≤ p.supportCount))
  | some none => results2.filter (fun _ => false)
  | none => results2

/-- Handler for GET /projects (src/server.js lines 115 to 159): filter by
category, tag and minimum support, sort, then paginate with
`slice(offset, offset + limit)` where the limit is capped at 100 and
defaults to 50 and the offset defaults to 0. -/
def listProjects (st : RegState) (q : ListQuery) : ListResp :=
  let results := listFiltered st q
  let sorted := sortResults q.sort results
  let start := parsedOr q.offset 0
  let count := min (parsedOr q.limit 50) 100
  let total : Int := results.length
  { projects := jsSlice sorted start (start + count),
    total := total, offset := start, limit := count }

/-- Handler for GET /projects/:id (src/server.js lines 162 to 176): the
project together with its 20 most recent signals. -/
def getProject (st : RegState) (pid : String) : Except ErrResp (Project × List Signal) :=
  match mapGet st.projects pid with
  | none => .error ⟨404, "Project not found"⟩
  | some project =>
    let projectSignals :=
      jsSlice (jsSortBy (fun a b => decide (b.createdAt ≤ a.createdAt))
        ((values st.signals).filter (fun s => s.projectId == project.id))) 0 20
    .ok (project, projectSignals)

/-- Owner check shared by update and delete (src/server.js lines 186 and
209): fails only when an owner value is supplied, is truthy, and its
lowercase form differs from the stored owner. -/
def ownerMismatch (o : Option String) (stored : String) : Bool :=
  match truthyS o with
  | some s => !(jsToLower s == stored)
  | none => false

/-- Field overwrites of PUT /projects/:id (src/server.js lines 190 to 196):
name only when truthy, description and url and logo whenever present,
category only when truthy and recognized, tags when present (truncated to
10), and `updatedAt` always stamped. -/
def applyUpdates (project : Project) (body : UpdateBody) (now : Int) : Project :=
  { project with
    name := match truthyS body.name with | some n => n | none => project.name,
    description := match body.description with | some d => d | none => project.description,
    url := match body.url with | some u => some u | none => project.url,
    logo := match body.logo with | some lg => some lg | none => project.logo,
    category := match truthyS body.category with
      | some c => if categoriesList.contains c then c else project.category
      | none => project.category,
    tags := match body.tags with | some ts => jsSlice ts 0 10 | none => project.tags,
    updatedAt := now }

/-- Handler for PUT /projects/:id (src/server.js lines 179 to 200), after
the whitelist gate. -/
def updateProject (st : RegState) (pid : String) (body : UpdateBody)
    (now : Int) : Except ErrResp Project × RegState :=
  match mapGet st.projects pid with
  | none => (.error ⟨404, "Project not found"⟩, st)
  | some project =>
    if ownerMismatch body.owner project.owner then
      (.error ⟨403, "Not project owner"⟩, st)
    else
      let p2 := applyUpdates project body now
      (.ok p2, { st with projects := mapSet st.projects project.id p2 })

/-- Handler for DELETE /projects/:id (src/server.js lines 203 to 221):
removes the project and every signal referencing it. -/
def deleteProject (st : RegState) (pid : String) (body : DeleteBody) :
    Except ErrResp String × RegState :=
  match mapGet st.projects pid with
  | none => (.error ⟨404, "Project not found"⟩, st)
  | some project =>
    if ownerMismatch body.owner project.owner then
      (.error ⟨403, "Not project owner"⟩, st)
    else
      (.ok project.id,
        { projects := mapDelete st.projects project.id,
          signals := st.signals.filter (fun kv => !(kv.2.projectId == project.id)) })

/-- Clamped signal amount (src/server.js line 242):
`Math.max(1, Math.min(100, parseInt(amount) || 1))`. -/
def signalAmount (amount : Option (Option Int)) : Int :=
  max 1 (min 100 (parsedOr amount 1))

/-- Handler for POST /projects/:id/signal (src/server.js lines 228 to 296),
after the whitelist gate: accumulate into an existing signal of the same
(project, lowercased address) pair, or create a fresh one. -/
def postSignal (isAddr : String → Bool) (st : RegState) (pid : String)
    (fid : String) (now : Int) (body : SignalBody) :
    Except ErrResp SignalResp × RegState :=
  match mapGet st.projects pid with
  | none => (.error ⟨404, "Project not found"⟩, st)
  | some project =>
    match truthyS body.address with
    | none => (.error ⟨400, "address required"⟩, st)
    | some address =>
      if !(isAddr address) then (.error ⟨400, "Invalid address"⟩, st)
      else
        let amt := signalAmount body.amount
        match (values st.signals).find?
            (fun s => s.projectId == project.id && s.address == jsToLower address) with
        | some existing =>
          let updated : Signal := { existing with
            amount := existing.amount + amt,
            message := match truthyS body.message with
              | some m => some m
              | none => existing.message,
            updatedAt := some now }
          let project2 := { project with totalSignal := project.totalSignal + amt }
          (.ok { status := 200, signal := updated,
                 project := ⟨project2.id, project2.name, project2.supportCount,
                   project2.totalSignal⟩ },
           { projects := mapSet st.projects project2.id project2,
             signals := mapSet st.signals existing.id updated })
        | none =>
          let signal : Signal := {
            id := fid, projectId := project.id, address := jsToLower address,
            amount := amt, message := truthyS body.message,
            createdAt := now, updatedAt := none }
          let project2 := { project with
            supportCount := project.supportCount + 1,
            totalSignal := project.totalSignal + amt }
          (.ok { status := 201, signal := signal,
                 project := ⟨project2.id, project2.name, project2.supportCount,
                   project2.totalSignal⟩ },
           { projects := mapSet st.projects project2.id project2,
             signals := mapSet st.signals signal.id signal })

/-- Handler for DELETE /projects/:id/signal (src/server.js lines 299 to
324): removes the live signal of the (project, lowercased address) pair,
flooring the cached counters at zero.  No syntactic address validation is
performed on this route. -/
def removeSignal (st : RegState) (pid : String) (body : RemoveBody) :
    Except ErrResp String × RegState :=
  match mapGet st.projects pid with
  | none => (.error ⟨404, "Project not found"⟩, st)
  | some project =>
    match truthyS body.address with
    | none => (.error ⟨400, "address required"⟩, st)
    | some address =>
      match (values st.signals).find?
          (fun s => s.projectId == project.id && s.address == jsToLower address) with
      | none => (.error ⟨404, "Signal not found"⟩, st)
      | some existing =>
        let project2 := { project with
          supportCount := max 0 (project.supportCount - 1),
          totalSignal := max 0 (project.totalSignal - existing.amount) }
        (.ok existing.id,
         { projects := mapSet st.projects project2.id project2,
           signals := mapDelete st.signals existing.id })

/-- Handler for GET /supporters/:address (src/server.js lines 327 to 355):
all signals by the lowercased address, annotated with the referenced
project when it still exists, newest first. -/
def getSupporters (isAddr : String → Bool) (st : RegState) (address : String) :
    Except ErrResp SupportersResp :=
  if !(isAddr address) then .error ⟨400, "Invalid address"⟩
  else
    let addr := jsToLower address
    let supporterSignals :=
      (((values st.signals).filter (fun s => s.address == addr)).map (fun s =>
        { sig := s,
          projectName := (mapGet st.projects s.projectId).map (·.name),
          projectCategory := (mapGet st.projects s.projectId).map (·.category) :
          AnnSignal })) |> jsSortBy (fun a b => decide (b.sig.createdAt ≤ a.sig.createdAt))
    .ok { address := addr,
          projectsSupported := supporterSignals.length,
          totalSignal := (supporterSignals.map (·.sig.amount)).sum,
          signals := supporterSignals }

/-- Match predicate of GET /search (src/server.js lines 405 to 409), applied
to an already-lowercased query: name and description are lowercased before
the substring test, stored tags are not. -/
def searchMatches (query : String) (p : Project) : Bool :=
  includesS (jsToLower p.name) query || includesS (jsToLower p.description) query ||
    p.tags.any (fun t => includesS t query)

/-- Handler for GET /search (src/server.js lines 396 to 414). -/
def searchProjects (st : RegState) (q : Option String)
    (limit : Option (Option Int)) : Except ErrResp (List Project) :=
  match q with
  | none => .error ⟨400, "Query must be at least 2 characters"⟩
  | some qs =>
    if qs.length < 2 then .error ⟨400, "Query must be at least 2 characters"⟩
    else
      let query := jsToLower qs
      .ok (jsSlice (jsSortBy (fun a b => decide (b.supportCount ≤ a.supportCount))
        ((values st.projects).filter (searchMatches query))) 0 (parsedOr limit 20))

/-- Search predicate as the specification words it: the query matches
case-insensitively against a name substring, a description substring, or a
tag substring. -/
def specSearchMatches (rawQuery : String) (p : Project) : Bool :=
  includesS (jsToLower p.name) (jsToLower rawQuery) ||
    includesS (jsToLower p.description) (jsToLower rawQuery) ||
    p.tags.any (fun t => includesS (jsToLower t) (jsToLower rawQuery))

/-- Whitelist cache time-to-live (src/server.js line 35). -/
def WL_CACHE_TTL : Int := 5 * 60 * 1000

/-- Allow-list cache state (src/server.js lines 33 to 34): the cached set
(modelled by its insertion list; membership is what matters) and the time of
the last successful refresh. -/
structure WhitelistState where
  cache : Option (List String)
  cacheTime : Int
deriving Repr, DecidableEq

/-- An entry of the remote allow-list response: either a plain address
string or an object exposing an address field (src/server.js line 45). -/
inductive WlEntry where
  | plain (s : String)
  | obj (address : String)
deriving Repr, DecidableEq

/-- JavaScript `e.address || e` on an allow-list entry. -/
def entryAddress : WlEntry → String
  | .plain s => s
  | .obj a => a

/-- The cache logic of `fetchWhitelist` (src/server.js lines 37 to 53).  The
network fetch outcome is passed in as `fetched` (`none` models a fetch or
parse failure caught by the try block).  Returns the served set, the next
cache state, and whether an external fetch was attempted.  The function is
total: a fetch failure is never surfaced as an error. -/
def fetchWhitelist (st : WhitelistState) (now : Int)
    (fetched : Option (List WlEntry)) : List String × WhitelistState × Bool :=
  match st.cache with
  | some c =>
    if now - st.cacheTime < WL_CACHE_TTL then (c, st, false)
    else
      match fetched with
      | some data => let s := data.map (fun e => jsToLower (entryAddress e))
                     (s, { cache := some s, cacheTime := now }, true)
      | none => (c, st, true)
  | none =>
    match fetched with
    | some data => let s := data.map (fun e => jsToLower (entryAddress e))
                   (s, { cache := some s, cacheTime := now }, true)
    | none => ([], st, true)

/-- Candidate address extracted by the whitelist middleware for the project
routes (src/server.js line 57), where the configured field is `address`:
the JavaScript or-chain over address, creator, participant, sender, from,
address. -/
def gateCandidateRaw (b : CreateBody) : Option String :=
  jsOrS b.address (jsOrS b.creator (jsOrS b.participant (jsOrS b.sender
    (jsOrS b.«from» b.address))))

/-- The first non-empty value among the gate fields in priority order. -/
def firstNonEmptyField (b : CreateBody) : Option String :=
  [b.address, b.creator, b.participant, b.sender, b.«from», b.address].findSome? truthyS

/-- Decision of the `requireWhitelist` middleware (src/server.js lines 55 to
67): `none` lets the request proceed unchanged, `some e` rejects it. -/
def requireWhitelistCheck (wl : List String) (b : CreateBody) : Option ErrResp :=
  match truthyS (gateCandidateRaw b) with
  | none => some ⟨400, "Address required"⟩
  | some addr =>
    if wl.contains (jsToLower addr) then none
    else some ⟨403, "Invite-only. Tag @owockibot on X to request access."⟩

/-- POST /projects including its whitelist gate. -/
def gatedCreateProject (isAddr : String → Bool) (wl : List String)
    (st : RegState) (fid : String) (now : Int) (body : CreateBody) :
    Except ErrResp Project × RegState :=
  match requireWhitelistCheck wl body with
  | some e => (.error e, st)
  | none => createProject isAddr st fid now body

/-- The live signals of a given project identifier, in insertion order. -/
def projSignals (sigs : KMap Signal) (pid : String) : List Signal :=
  (values sigs).filter (fun s => s.projectId == pid)

/-- Success test on a handler result. -/
def isOkR : Except ErrResp α → Bool
  | .ok _ => true
  | .error _ => false

/-! ### State invariant -/

/-- Internal well-formedness bundle of the two stores: keys agree with the
stored record identifier, keys are unique, signal amounts are at least 1, at
most one live signal exists per (projectId, address) pair, signals reference
existing projects, and the two denormalized counters on every project agree
with the live signals referencing it. -/
structure StoreInv (st : RegState) : Prop where
  pid_key : ∀ kv ∈ st.projects, kv.2.id = kv.1
  pkeys : (st.projects.map Prod.fst).Nodup
  sid_key : ∀ kv ∈ st.signals, kv.2.id = kv.1
  skeys : (st.signals.map Prod.fst).Nodup
  amt_pos : ∀ kv ∈ st.signals, 1 ≤ kv.2.amount
  uniq : st.signals.Pairwise
    (fun a b => ¬(a.2.projectId = b.2.projectId ∧ a.2.address = b.2.address))
  refInt : ∀ kv ∈ st.signals, kv.2.projectId ∈ st.projects.map Prod.fst
  counters : ∀ kv ∈ st.projects,
    kv.2.supportCount = ((projSignals st.signals kv.2.id).length : Int) ∧
    kv.2.totalSignal = ((projSignals st.signals kv.2.id).map (·.amount)).sum

/-! ### Reachable states -/

/-- One successful mutating API request applied to the stores.  The two
identifier-generating requests carry the freshness of the generated uuid as
a side condition. -/
inductive Step : RegState → RegState → Prop where
  | createP (isAddr : String → Bool) (st : RegState) (fid : String) (now : Int)
      (body : CreateBody)
      (hfresh : ∀ kv ∈ st.projects, ¬kv.1 = fid)
      (hok : isOkR (createProject isAddr st fid now body).1 = true) :
      Step st (createProject isAddr st fid now body).2
  | updateP (st : RegState) (pid : String) (body : UpdateBody) (now : Int)
      (hok : isOkR (updateProject st pid body now).1 = true) :
      Step st (updateProject st pid body now).2
  | deleteP (st : RegState) (pid : String) (body : DeleteBody)
      (hok : isOkR (deleteProject st pid body).1 = true) :
      Step st (deleteProject st pid body).2
  | signalUp (isAddr : String → Bool) (st : RegState) (pid fid : String) (now : Int)
      (body : SignalBody)
      (hfresh : ∀ kv ∈ st.signals, ¬kv.1 = fid)
      (hok : isOkR (postSignal isAddr st pid fid now body).1 = true) :
      Step st (postSignal isAddr st pid fid now body).2
  | signalRm (st : RegState) (pid : String) (body : RemoveBody)
      (hok : isOkR (removeSignal st pid body).1 = true) :
      Step st (removeSignal st pid body).2

/-- States reachable from the empty stores by successful API requests.
Requests that fail leave the stores untouched, so only successful requests
appear; read-only routes do not mutate the stores. -/
inductive Reachable : RegState → Prop where
  | init : Reachable ⟨[], []⟩
  | step {st st2 : RegState} : Reachable st → Step st st2 → Reachable st2

/-! ### Concrete states used by witnesses and counterexamples -/

/-- A simple concrete stand-in for the external `ethers.isAddress` predicate,
accepting three fixed addresses. -/
def isAddrW : String → Bool := fun s =>
  s == "0xAAA" || s == "0xBBB" || s == "0xCCC"

/-- A concrete creation request: gate candidate `0xAAA`, owner `0xBBB`. -/
def bodyC : CreateBody :=
  { name := some "Foo", description := none, url := none, category := none,
    owner := some "0xBBB", logo := none, tags := none, address := some "0xAAA",
    creator := none, participant := none, sender := none, «from» := none }

/-- The initial empty stores. -/
def stW0 : RegState := ⟨[], []⟩

/-- State after creating project `p1`. -/
def stW1 : RegState := (createProject isAddrW stW0 "p1" 0 bodyC).2

/-- The record stored for project `p1` in `stW1`. -/
def P1 : Project :=
  ⟨"p1", "Foo", "", none, none, "other", [], "0xbbb", 0, 0, 0, 0⟩

/-- A signal request of amount 5 from `0xCCC`. -/
def sbody5 : SignalBody := ⟨some "0xCCC", some (some 5), none⟩

/-- A repeat signal request of amount 3 from the same address. -/
def sbody3 : SignalBody := ⟨some "0xCCC", some (some 3), none⟩

/-- State after the first signal (amount 5). -/
def stW2 : RegState := (postSignal isAddrW stW1 "p1" "s1" 1 sbody5).2

/-- State after the repeat signal (amount 3) from the same address. -/
def stW3 : RegState := (postSignal isAddrW stW2 "p1" "s2" 2 sbody3).2

/-- State after deleting project `p1`. -/
def stW4 : RegState := (deleteProject stW3 "p1" ⟨none⟩).2

/-- A project whose only search handle is the mixed-case tag `ETH`. -/
def P8 : Project := ⟨"p8", "aa", "", none, none, "other", ["ETH"], "0xaaa", 0, 0, 0, 0⟩

/-- A single-project store for the search counterexample. -/
def st8 : RegState := ⟨[("p8", P8)], []⟩

/-- A list query asking for offset 5 (beyond the store size). -/
def q5a : ListQuery := ⟨none, none, none, none, none, some (some 5)⟩

/-- A list query with a negative parsed limit. -/
def q5b : ListQuery := ⟨none, none, none, none, some (some (-5)), none⟩

/-- A list query with offset 1 and default limit. -/
def q5c : ListQuery := ⟨none, none, none, none, none, some (some 1)⟩

/-- Clamp as the specification words it: the integer clamped into [1,100],
with 1 used for an absent or unparseable amount input. -/
def specClampAmount : Option (Option Int) → Int
  | some (some n) => max 1 (min 100 n)
  | _ => 1

/-- A signal request with amount 200 (to be clamped to 100). -/
def sbody200 : SignalBody := ⟨some "0xCCC", some (some 200), none⟩

/-- The record stored for project `p1` in `stW3`. -/
def PW3 : Project := ⟨"p1", "Foo", "", none, none, "other", [], "0xbbb", 1, 8, 0, 0⟩

/-! ### Association-list lemmas -/

theorem mapGet_mem {m : KMap α} {k : String} {v : α} (h : mapGet m k = some v) :
    (k, v) ∈ m := by
  unfold mapGet at h
  cases hf : m.find? (fun kv => kv.1 == k) with
  | none => rw [hf] at h; simp at h
  | some kv =>
    rw [hf] at h
    have hp := List.find?_some hf
    have hmem := List.mem_of_find?_eq_some hf
    have hk : kv.1 = k := by simpa using hp
    have hv : kv.2 = v := by simpa using h
    have : kv = (k, v) := by
      cases kv
      simp_all
    rwa [this] at hmem

theorem mapSet_fresh {m : KMap α} {k : String} (h : ∀ kv ∈ m, ¬kv.1 = k) (v : α) :
    mapSet m k v = m ++ [(k, v)] := by
  unfold mapSet
  have hany : m.any (fun kv => kv.1 == k) = false := by
    simp only [List.any_eq_false]
    intro kv hkv
    simpa using h kv hkv
  simp [hany]

theorem map_id_of_keys_ne {l : KMap α} {k : String} {w : α}
    (h : ∀ kv ∈ l, ¬kv.1 = k) :
    l.map (fun kv => if kv.1 == k then (k, w) else kv) = l := by
  induction l with
  | nil => rfl
  | cons hd tl ih =>
    have hhd : ¬hd.1 = k := h hd (List.mem_cons_self hd tl)
    simp only [List.map_cons]
    rw [if_neg (by simpa using hhd), ih (fun kv hkv => h kv (List.mem_cons_of_mem hd hkv))]

theorem filter_keys_ne {l : KMap α} {k : String}
    (h : ∀ kv ∈ l, ¬kv.1 = k) :
    l.filter (fun kv => !(kv.1 == k)) = l := by
  apply List.filter_eq_self.mpr
  intro kv hkv
  simpa using h kv hkv

theorem kmap_decomp {m : KMap α} {k : String} {v : α}
    (hnd : (m.map Prod.fst).Nodup) (hm : (k, v) ∈ m) :
    ∃ l1 l2, m = l1 ++ (k, v) :: l2 ∧
      (∀ kv ∈ l1, ¬kv.1 = k) ∧ (∀ kv ∈ l2, ¬kv.1 = k) := by
  induction m with
  | nil => cases hm
  | cons hd tl ih =>
    rw [List.map_cons] at hnd
    have hnotin : hd.1 ∉ tl.map Prod.fst := (List.nodup_cons.mp hnd).1
    have hndtl : (tl.map Prod.fst).Nodup := (List.nodup_cons.mp hnd).2
    rcases List.mem_cons.mp hm with heq | htl
    · refine ⟨[], tl, by rw [heq]; rfl, by simp, ?_⟩
      intro kv hkv hke
      rw [← heq] at hnotin
      exact hnotin (by
        show k ∈ tl.map Prod.fst
        rw [← hke]
        exact List.mem_map_of_mem Prod.fst hkv)
    · obtain ⟨l1, l2, hdec, h1, h2⟩ := ih hndtl htl
      refine ⟨hd :: l1, l2, by rw [hdec]; rfl, ?_, h2⟩
      intro kv hkv
      rcases List.mem_cons.mp hkv with hkv2 | hkv2
      · intro hke
        have hkin : k ∈ tl.map Prod.fst := List.mem_map_of_mem Prod.fst htl
        rw [hkv2] at hke
        exact hnotin (by rw [hke]; exact hkin)
      · exact h1 kv hkv2

theorem mapSet_decomp {l1 l2 : KMap α} {k : String} {v : α} (w : α)
    (h1 : ∀ kv ∈ l1, ¬kv.1 = k) (h2 : ∀ kv ∈ l2, ¬kv.1 = k) :
    mapSet (l1 ++ (k, v) :: l2) k w = l1 ++ (k, w) :: l2 := by
  unfold mapSet
  have hany : (l1 ++ (k, v) :: l2).any (fun kv => kv.1 == k) = true := by
    simp
  rw [if_pos hany, List.map_append, map_id_of_keys_ne h1, List.map_cons]
  simp only [beq_self_eq_true, if_true, map_id_of_keys_ne h2]

theorem mapDelete_decomp {l1 l2 : KMap α} {k : String} {v : α}
    (h1 : ∀ kv ∈ l1, ¬kv.1 = k) (h2 : ∀ kv ∈ l2, ¬kv.1 = k) :
    mapDelete (l1 ++ (k, v) :: l2) k = l1 ++ l2 := by
  unfold mapDelete
  rw [List.filter_append, filter_keys_ne h1, List.filter_cons]
  simp [filter_keys_ne h2]

@[simp]
theorem values_append (l1 l2 : KMap α) :
    values (l1 ++ l2) = values l1 ++ values l2 := by
  simp [values]

@[simp]
theorem values_cons (kv : String × α) (l : KMap α) :
    values (kv :: l) = kv.2 :: values l := by
  simp [values]

theorem values_filter (m : KMap α) (p : α → Bool) :
    values (m.filter (fun kv => p kv.2)) = (values m).filter p := by
  induction m with
  | nil => rfl
  | cons hd tl ih =>
    by_cases hp : p hd.2
    · simp [values, List.filter_cons, hp] at ih ⊢
      exact ih
    · simp [values, List.filter_cons, hp] at ih ⊢
      exact ih

theorem mem_values_iff {m : KMap α} {a : α} :
    a ∈ values m ↔ ∃ kv ∈ m, kv.2 = a := by
  simp [values]

theorem not_mem_keys {m : KMap α} {k : String} (h : ∀ kv ∈ m, ¬kv.1 = k) :
    k ∉ m.map Prod.fst := by
  intro hk
  obtain ⟨kv, hkv, hke⟩ := List.mem_map.mp hk
  exact h kv hkv hke

theorem mapDelete_sublist (m : KMap α) (k : String) : (mapDelete m k).Sublist m :=
  List.filter_sublist m

theorem projSignals_append2 (s1 s2 : KMap Signal) (q : String) :
    projSignals (s1 ++ s2) q = projSignals s1 q ++ projSignals s2 q := by
  simp [projSignals, List.filter_append]

theorem projSignals_mid (s1 s2 : KMap Signal) (k : String) (X : Signal) (q : String) :
    projSignals (s1 ++ (k, X) :: s2) q =
      projSignals s1 q ++ (if X.projectId == q then [X] else []) ++ projSignals s2 q := by
  by_cases hx : X.projectId = q
  · simp [projSignals, List.filter_append, List.filter_cons, hx]
  · simp [projSignals, List.filter_append, List.filter_cons, hx]

theorem projSignals_sum_nonneg {s : KMap Signal} (q : String)
    (hpos : ∀ kv ∈ s, 1 ≤ kv.2.amount) :
    0 ≤ ((projSignals s q).map (·.amount)).sum := by
  apply List.sum_nonneg
  intro x hx
  obtain ⟨sg, hsg, hsge⟩ := List.mem_map.mp hx
  have hsv : sg ∈ values s := List.mem_of_mem_filter hsg
  obtain ⟨kv, hkv, hkve⟩ := mem_values_iff.mp hsv
  have := hpos kv hkv
  rw [hkve] at this
  rw [← hsge]
  omega

theorem inv_insert_project {st : RegState} {fid : String} {P : Project}
    (hinv : StoreInv st) (hfresh : ∀ kv ∈ st.projects, ¬kv.1 = fid)
    (hid : P.id = fid) (hsc : P.supportCount = 0) (hts : P.totalSignal = 0) :
    StoreInv { st with projects := mapSet st.projects fid P } := by
  rw [mapSet_fresh hfresh]
  constructor
  · intro kv hkv
    rcases List.mem_append.mp hkv with hkv | hkv
    · exact hinv.pid_key kv hkv
    · simp only [List.mem_singleton] at hkv
      rw [hkv]
      simpa using hid
  · rw [List.map_append, List.nodup_append]
    refine ⟨hinv.pkeys, by simp, ?_⟩
    intro a ha hb
    simp only [List.map_cons, List.map_nil, List.mem_singleton] at hb
    subst hb
    exact not_mem_keys hfresh ha
  · exact hinv.sid_key
  · exact hinv.skeys
  · exact hinv.amt_pos
  · exact hinv.uniq
  · intro kv hkv
    have hold := hinv.refInt kv hkv
    rw [List.map_append]
    exact List.mem_append_left _ hold
  · intro kv hkv
    rcases List.mem_append.mp hkv with hkv | hkv
    · exact hinv.counters kv hkv
    · simp only [List.mem_singleton] at hkv
      rw [hkv]
      have hnone : projSignals st.signals fid = [] := by
        apply List.filter_eq_nil_iff.mpr
        intro s hs
        simp only [beq_iff_eq]
        intro hspid
        obtain ⟨kv2, hkv2, hkv2e⟩ := mem_values_iff.mp hs
        have hin := hinv.refInt kv2 hkv2
        rw [hkv2e, hspid] at hin
        exact not_mem_keys hfresh hin
      simp [hid, hsc, hts, hnone]

theorem inv_update_entry {st : RegState} {pid : String} {P Q : Project}
    (hinv : StoreInv st) (hget : mapGet st.projects pid = some P)
    (hid : Q.id = P.id) (hsc : Q.supportCount = P.supportCount)
    (hts : Q.totalSignal = P.totalSignal) :
    StoreInv { st with projects := mapSet st.projects P.id Q } := by
  have hmem := mapGet_mem hget
  have hpk : P.id = pid := hinv.pid_key (pid, P) hmem
  obtain ⟨l1, l2, hdec, h1, h2⟩ := kmap_decomp hinv.pkeys hmem
  rw [hpk, hdec, mapSet_decomp Q h1 h2]
  have hkeys : ((l1 ++ (pid, Q) :: l2).map Prod.fst) = st.projects.map Prod.fst := by
    rw [hdec]
    simp
  have hmemold : ∀ kv, kv ∈ l1 ∨ kv ∈ l2 → kv ∈ st.projects := by
    intro kv hkv
    rw [hdec]
    rcases hkv with hkv | hkv
    · exact List.mem_append_left _ hkv
    · exact List.mem_append_right _ (List.mem_cons_of_mem _ hkv)
  constructor
  · intro kv hkv
    rcases List.mem_append.mp hkv with hkv | hkv
    · exact hinv.pid_key kv (hmemold kv (Or.inl hkv))
    · rcases List.mem_cons.mp hkv with hkv | hkv
      · rw [hkv]
        simpa [hid] using hpk
      · exact hinv.pid_key kv (hmemold kv (Or.inr hkv))
  · rw [hkeys]
    exact hinv.pkeys
  · exact hinv.sid_key
  · exact hinv.skeys
  · exact hinv.amt_pos
  · exact hinv.uniq
  · intro kv hkv
    rw [hkeys]
    exact hinv.refInt kv hkv
  · intro kv hkv
    rcases List.mem_append.mp hkv with hkv | hkv
    · exact hinv.counters kv (hmemold kv (Or.inl hkv))
    · rcases List.mem_cons.mp hkv with hkv | hkv
      · rw [hkv]
        have hold := hinv.counters (pid, P) hmem
        simpa [hid, hsc, hts] using hold
      · exact hinv.counters kv (hmemold kv (Or.inr hkv))

theorem projSignals_single_miss {fid : String} {S : Signal} {q : String}
    (h : ¬S.projectId = q) : projSignals [(fid, S)] q = [] := by
  simp [projSignals, values, h]

theorem projSignals_single_hit {fid : String} {S : Signal} {q : String}
    (h : S.projectId = q) : projSignals [(fid, S)] q = [S] := by
  simp [projSignals, values, h]

theorem inv_delete_project {st : RegState} {pid : String} {P : Project}
    (hinv : StoreInv st) (hget : mapGet st.projects pid = some P) :
    StoreInv
      { projects := mapDelete st.projects P.id,
        signals := st.signals.filter (fun kv => !(kv.2.projectId == P.id)) } := by
  have hmem := mapGet_mem hget
  have hsubP : (mapDelete st.projects P.id).Sublist st.projects := mapDelete_sublist _ _
  have hsubS : (st.signals.filter (fun kv => !(kv.2.projectId == P.id))).Sublist st.signals :=
    List.filter_sublist _
  constructor
  · intro kv hkv
    exact hinv.pid_key kv (hsubP.subset hkv)
  · exact List.Nodup.sublist (hsubP.map Prod.fst) hinv.pkeys
  · intro kv hkv
    exact hinv.sid_key kv (hsubS.subset hkv)
  · exact List.Nodup.sublist (hsubS.map Prod.fst) hinv.skeys
  · intro kv hkv
    exact hinv.amt_pos kv (hsubS.subset hkv)
  · exact hinv.uniq.sublist hsubS
  · intro kv hkv
    have hkv2 : kv ∈ st.signals.filter (fun kv => !(kv.2.projectId == P.id)) := hkv
    have hne : ¬kv.2.projectId = P.id := by
      have hb := List.of_mem_filter hkv2
      simpa using hb
    have hold := hinv.refInt kv (hsubS.subset hkv2)
    obtain ⟨kv2, hkv2m, hkv2e⟩ := List.mem_map.mp hold
    apply List.mem_map.mpr
    refine ⟨kv2, ?_, hkv2e⟩
    show kv2 ∈ mapDelete st.projects P.id
    unfold mapDelete
    apply List.mem_filter.mpr
    refine ⟨hkv2m, ?_⟩
    simp [hkv2e, hne]
  · intro kv hkv
    have hkvP : kv ∈ mapDelete st.projects P.id := hkv
    have hkvm : kv ∈ st.projects := hsubP.subset hkvP
    have hkne : ¬kv.1 = P.id := by
      unfold mapDelete at hkvP
      have hb := List.of_mem_filter hkvP
      simpa using hb
    have hidne : ¬kv.2.id = P.id := by
      rw [hinv.pid_key kv hkvm]
      exact hkne
    have hps : projSignals (st.signals.filter (fun kv2 => !(kv2.2.projectId == P.id))) kv.2.id
        = projSignals st.signals kv.2.id := by
      unfold projSignals
      rw [values_filter st.signals (fun s => !(s.projectId == P.id)), List.filter_filter]
      apply List.filter_congr
      intro s hs
      by_cases hsp : s.projectId = kv.2.id
      · simp [hsp, hidne]
      · simp [hsp]
    have hold := hinv.counters kv hkvm
    rw [hps]
    exact hold

theorem inv_new_signal {st : RegState} {pid fid addrL : String} {P Q : Project} {S : Signal}
    (hinv : StoreInv st) (hget : mapGet st.projects pid = some P)
    (hfresh : ∀ kv ∈ st.signals, ¬kv.1 = fid)
    (hnone : ∀ s ∈ values st.signals, ¬(s.projectId = P.id ∧ s.address = addrL))
    (hSid : S.id = fid) (hSpid : S.projectId = P.id) (hSaddr : S.address = addrL)
    (hSamt : 1 ≤ S.amount)
    (hQid : Q.id = P.id) (hQsc : Q.supportCount = P.supportCount + 1)
    (hQts : Q.totalSignal = P.totalSignal + S.amount) :
    StoreInv
      { projects := mapSet st.projects P.id Q,
        signals := mapSet st.signals fid S } := by
  have hmem := mapGet_mem hget
  have hpk : P.id = pid := hinv.pid_key (pid, P) hmem
  obtain ⟨l1, l2, hdec, h1, h2⟩ := kmap_decomp hinv.pkeys hmem
  rw [hpk] at hSpid hQid hnone
  rw [hpk, hdec, mapSet_decomp Q h1 h2, mapSet_fresh hfresh]
  have hkeys : ((l1 ++ (pid, Q) :: l2).map Prod.fst) = st.projects.map Prod.fst := by
    rw [hdec]
    simp
  have hmemold : ∀ kv, kv ∈ l1 ∨ kv ∈ l2 → kv ∈ st.projects := by
    intro kv hkv
    rw [hdec]
    rcases hkv with hkv | hkv
    · exact List.mem_append_left _ hkv
    · exact List.mem_append_right _ (List.mem_cons_of_mem _ hkv)
  have hPsc := hinv.counters (pid, P) hmem
  rw [hpk] at hPsc
  constructor
  · intro kv hkv
    rcases List.mem_append.mp hkv with hkv | hkv
    · exact hinv.pid_key kv (hmemold kv (Or.inl hkv))
    · rcases List.mem_cons.mp hkv with hkv | hkv
      · rw [hkv]
        exact hQid
      · exact hinv.pid_key kv (hmemold kv (Or.inr hkv))
  · rw [hkeys]
    exact hinv.pkeys
  · intro kv hkv
    rcases List.mem_append.mp hkv with hkv | hkv
    · exact hinv.sid_key kv hkv
    · simp only [List.mem_singleton] at hkv
      rw [hkv]
      exact hSid
  · rw [List.map_append, List.nodup_append]
    refine ⟨hinv.skeys, by simp, ?_⟩
    intro a ha hb
    simp only [List.map_cons, List.map_nil, List.mem_singleton] at hb
    subst hb
    exact not_mem_keys hfresh ha
  · intro kv hkv
    rcases List.mem_append.mp hkv with hkv | hkv
    · exact hinv.amt_pos kv hkv
    · simp only [List.mem_singleton] at hkv
      rw [hkv]
      exact hSamt
  · rw [List.pairwise_append]
    refine ⟨hinv.uniq, by simp, ?_⟩
    intro a ha b hb
    simp only [List.mem_singleton] at hb
    rw [hb]
    intro hcon
    apply hnone a.2 (mem_values_iff.mpr ⟨a, ha, rfl⟩)
    constructor
    · rw [hcon.1, hSpid]
    · rw [hcon.2, hSaddr]
  · intro kv hkv
    rcases List.mem_append.mp hkv with hkv | hkv
    · rw [hkeys]
      exact hinv.refInt kv hkv
    · simp only [List.mem_singleton] at hkv
      rw [hkv]
      show S.projectId ∈ (l1 ++ (pid, Q) :: l2).map Prod.fst
      rw [hSpid]
      simp
  · intro kv hkv
    rcases List.mem_append.mp hkv with hkv | hkv
    · have hk1 : ¬kv.1 = pid := h1 kv hkv
      have hkm : kv ∈ st.projects := hmemold kv (Or.inl hkv)
      have hkidne : ¬kv.2.id = pid := by
        rw [hinv.pid_key kv hkm]
        exact hk1
      have hmiss : ¬S.projectId = kv.2.id := by
        rw [hSpid]
        exact fun he => hkidne he.symm
      rw [projSignals_append2, projSignals_single_miss hmiss, List.append_nil]
      exact hinv.counters kv hkm
    · rcases List.mem_cons.mp hkv with hkv | hkv
      · rw [hkv]
        rw [show ((pid, Q).2) = Q from rfl, hQid]
        rw [projSignals_append2, projSignals_single_hit hSpid]
        constructor
        · rw [hQsc, hPsc.1]
          simp
        · rw [hQts, hPsc.2]
          simp
      · have hk1 : ¬kv.1 = pid := h2 kv hkv
        have hkm : kv ∈ st.projects := hmemold kv (Or.inr hkv)
        have hkidne : ¬kv.2.id = pid := by
          rw [hinv.pid_key kv hkm]
          exact hk1
        have hmiss : ¬S.projectId = kv.2.id := by
          rw [hSpid]
          exact fun he => hkidne he.symm
        rw [projSignals_append2, projSignals_single_miss hmiss, List.append_nil]
        exact hinv.counters kv hkm


theorem entry_of_mem_values {st : RegState} {E : Signal}
    (hinv : StoreInv st) (hEmem : E ∈ values st.signals) :
    (E.id, E) ∈ st.signals := by
  obtain ⟨kv, hkv, hkve⟩ := mem_values_iff.mp hEmem
  have hk0 := hinv.sid_key kv hkv
  obtain ⟨k0, v0⟩ := kv
  simp only at hkve hk0
  rw [hkve] at hk0 hkv
  rw [← hk0] at hkv
  exact hkv

theorem inv_accum_signal {st : RegState} {pid : String} {P Q : Project} {E U : Signal}
    {d : Int}
    (hinv : StoreInv st) (hget : mapGet st.projects pid = some P)
    (hEmem : E ∈ values st.signals) (hEpid : E.projectId = P.id)
    (hUid : U.id = E.id) (hUpid : U.projectId = E.projectId)
    (hUaddr : U.address = E.address) (hUamt : U.amount = E.amount + d) (hd : 1 ≤ d)
    (hQid : Q.id = P.id) (hQsc : Q.supportCount = P.supportCount)
    (hQts : Q.totalSignal = P.totalSignal + d) :
    StoreInv
      { projects := mapSet st.projects P.id Q,
        signals := mapSet st.signals E.id U } := by
  have hmem := mapGet_mem hget
  have hpk : P.id = pid := hinv.pid_key (pid, P) hmem
  obtain ⟨l1, l2, hdec, h1, h2⟩ := kmap_decomp hinv.pkeys hmem
  have hEin : (E.id, E) ∈ st.signals := entry_of_mem_values hinv hEmem
  obtain ⟨s1, s2, hdec2, g1, g2⟩ := kmap_decomp hinv.skeys hEin
  have hEamt : 1 ≤ E.amount := hinv.amt_pos (E.id, E) hEin
  rw [hpk] at hQid hEpid
  rw [hpk, hdec, mapSet_decomp Q h1 h2]
  rw [show mapSet st.signals E.id U = s1 ++ (E.id, U) :: s2 from by
    rw [hdec2]; exact mapSet_decomp U g1 g2]
  have hkeys : ((l1 ++ (pid, Q) :: l2).map Prod.fst) = st.projects.map Prod.fst := by
    rw [hdec]
    simp
  have hskeys : ((s1 ++ (E.id, U) :: s2).map Prod.fst) = st.signals.map Prod.fst := by
    rw [hdec2]
    simp
  have hmemold : ∀ kv, kv ∈ l1 ∨ kv ∈ l2 → kv ∈ st.projects := by
    intro kv hkv
    rw [hdec]
    rcases hkv with hkv | hkv
    · exact List.mem_append_left _ hkv
    · exact List.mem_append_right _ (List.mem_cons_of_mem _ hkv)
  have hsmemold : ∀ kv, kv ∈ s1 ∨ kv ∈ s2 → kv ∈ st.signals := by
    intro kv hkv
    rw [hdec2]
    rcases hkv with hkv | hkv
    · exact List.mem_append_left _ hkv
    · exact List.mem_append_right _ (List.mem_cons_of_mem _ hkv)
  have hPc := hinv.counters (pid, P) hmem
  rw [hpk] at hPc
  have hPs : projSignals st.signals pid =
      projSignals s1 pid ++ [E] ++ projSignals s2 pid := by
    rw [hdec2, projSignals_mid]
    rw [if_pos (by simpa using hEpid)]
  constructor
  · intro kv hkv
    rcases List.mem_append.mp hkv with hkv | hkv
    · exact hinv.pid_key kv (hmemold kv (Or.inl hkv))
    · rcases List.mem_cons.mp hkv with hkv | hkv
      · rw [hkv]
        exact hQid
      · exact hinv.pid_key kv (hmemold kv (Or.inr hkv))
  · rw [hkeys]
    exact hinv.pkeys
  · intro kv hkv
    rcases List.mem_append.mp hkv with hkv | hkv
    · exact hinv.sid_key kv (hsmemold kv (Or.inl hkv))
    · rcases List.mem_cons.mp hkv with hkv | hkv
      · rw [hkv]
        exact hUid
      · exact hinv.sid_key kv (hsmemold kv (Or.inr hkv))
  · rw [hskeys]
    exact hinv.skeys
  · intro kv hkv
    rcases List.mem_append.mp hkv with hkv | hkv
    · exact hinv.amt_pos kv (hsmemold kv (Or.inl hkv))
    · rcases List.mem_cons.mp hkv with hkv | hkv
      · rw [hkv]
        show 1 ≤ U.amount
        omega
      · exact hinv.amt_pos kv (hsmemold kv (Or.inr hkv))
  · have huniq := hinv.uniq
    rw [hdec2, List.pairwise_append] at huniq
    obtain ⟨hp1, hp2, hcross⟩ := huniq
    rw [List.pairwise_cons] at hp2
    obtain ⟨hmid, hp2tl⟩ := hp2
    rw [List.pairwise_append]
    refine ⟨hp1, ?_, ?_⟩
    · rw [List.pairwise_cons]
      refine ⟨?_, hp2tl⟩
      intro b hb
      have hmb := hmid b hb
      simpa [hUpid, hUaddr] using hmb
    · intro a ha b hb
      rcases List.mem_cons.mp hb with hb2 | hb2
      · rw [hb2]
        have hcx := hcross a ha (E.id, E) (List.mem_cons_self _ _)
        simpa [hUpid, hUaddr] using hcx
      · exact hcross a ha b (List.mem_cons_of_mem _ hb2)
  · intro kv hkv
    rw [hkeys]
    rcases List.mem_append.mp hkv with hkv | hkv
    · exact hinv.refInt kv (hsmemold kv (Or.inl hkv))
    · rcases List.mem_cons.mp hkv with hkv | hkv
      · rw [hkv]
        show U.projectId ∈ st.projects.map Prod.fst
        rw [hUpid]
        exact hinv.refInt (E.id, E) hEin
      · exact hinv.refInt kv (hsmemold kv (Or.inr hkv))
  · intro kv hkv
    rcases List.mem_append.mp hkv with hkv | hkv
    · have hk1 : ¬kv.1 = pid := h1 kv hkv
      have hkm : kv ∈ st.projects := hmemold kv (Or.inl hkv)
      have hkidne : ¬kv.2.id = pid := by
        rw [hinv.pid_key kv hkm]
        exact hk1
      have hps : projSignals (s1 ++ (E.id, U) :: s2) kv.2.id
          = projSignals st.signals kv.2.id := by
        rw [projSignals_mid, hdec2, projSignals_mid]
        rw [if_neg (by simp [hUpid, hEpid]; exact fun he => hkidne he.symm),
          if_neg (by simp [hEpid]; exact fun he => hkidne he.symm)]
      rw [hps]
      exact hinv.counters kv hkm
    · rcases List.mem_cons.mp hkv with hkv | hkv
      · rw [hkv]
        show Q.supportCount = ((projSignals (s1 ++ (E.id, U) :: s2) Q.id).length : Int) ∧
          Q.totalSignal = ((projSignals (s1 ++ (E.id, U) :: s2) Q.id).map (·.amount)).sum
        rw [hQid, projSignals_mid]
        rw [if_pos (by simp [hUpid, hEpid])]
        obtain ⟨hsc2, hts2⟩ := hPc
        rw [hPs] at hsc2 hts2
        constructor
        · rw [hQsc, hsc2]
          simp
        · rw [hQts, hts2]
          simp
          omega
      · have hk1 : ¬kv.1 = pid := h2 kv hkv
        have hkm : kv ∈ st.projects := hmemold kv (Or.inr hkv)
        have hkidne : ¬kv.2.id = pid := by
          rw [hinv.pid_key kv hkm]
          exact hk1
        have hps : projSignals (s1 ++ (E.id, U) :: s2) kv.2.id
            = projSignals st.signals kv.2.id := by
          rw [projSignals_mid, hdec2, projSignals_mid]
          rw [if_neg (by simp [hUpid, hEpid]; exact fun he => hkidne he.symm),
            if_neg (by simp [hEpid]; exact fun he => hkidne he.symm)]
        rw [hps]
        exact hinv.counters kv hkm

theorem inv_remove_signal {st : RegState} {pid : String} {P Q : Project} {E : Signal}
    (hinv : StoreInv st) (hget : mapGet st.projects pid = some P)
    (hEmem : E ∈ values st.signals) (hEpid : E.projectId = P.id)
    (hQid : Q.id = P.id) (hQsc : Q.supportCount = max 0 (P.supportCount - 1))
    (hQts : Q.totalSignal = max 0 (P.totalSignal - E.amount)) :
    StoreInv
      { projects := mapSet st.projects P.id Q,
        signals := mapDelete st.signals E.id } := by
  have hmem := mapGet_mem hget
  have hpk : P.id = pid := hinv.pid_key (pid, P) hmem
  obtain ⟨l1, l2, hdec, h1, h2⟩ := kmap_decomp hinv.pkeys hmem
  have hEin : (E.id, E) ∈ st.signals := entry_of_mem_values hinv hEmem
  obtain ⟨s1, s2, hdec2, g1, g2⟩ := kmap_decomp hinv.skeys hEin
  have hEamt : 1 ≤ E.amount := hinv.amt_pos (E.id, E) hEin
  rw [hpk] at hQid hEpid
  rw [hpk, hdec, mapSet_decomp Q h1 h2]
  rw [show mapDelete st.signals E.id = s1 ++ s2 from by
    rw [hdec2]; exact mapDelete_decomp g1 g2]
  have hsub : (s1 ++ s2).Sublist st.signals := by
    rw [hdec2]
    exact (List.sublist_cons_self (E.id, E) s2).append_left s1
  have hkeys : ((l1 ++ (pid, Q) :: l2).map Prod.fst) = st.projects.map Prod.fst := by
    rw [hdec]
    simp
  have hmemold : ∀ kv, kv ∈ l1 ∨ kv ∈ l2 → kv ∈ st.projects := by
    intro kv hkv
    rw [hdec]
    rcases hkv with hkv | hkv
    · exact List.mem_append_left _ hkv
    · exact List.mem_append_right _ (List.mem_cons_of_mem _ hkv)
  have hPc := hinv.counters (pid, P) hmem
  rw [hpk] at hPc
  have hPs : projSignals st.signals pid =
      projSignals s1 pid ++ [E] ++ projSignals s2 pid := by
    rw [hdec2, projSignals_mid]
    rw [if_pos (by simpa using hEpid)]
  have hpos1 : ∀ kv ∈ s1, 1 ≤ kv.2.amount := fun kv hkv =>
    hinv.amt_pos kv (hsub.subset (List.mem_append_left _ hkv))
  have hpos2 : ∀ kv ∈ s2, 1 ≤ kv.2.amount := fun kv hkv =>
    hinv.amt_pos kv (hsub.subset (List.mem_append_right _ hkv))
  constructor
  · intro kv hkv
    rcases List.mem_append.mp hkv with hkv | hkv
    · exact hinv.pid_key kv (hmemold kv (Or.inl hkv))
    · rcases List.mem_cons.mp hkv with hkv | hkv
      · rw [hkv]
        exact hQid
      · exact hinv.pid_key kv (hmemold kv (Or.inr hkv))
  · rw [hkeys]
    exact hinv.pkeys
  · intro kv hkv
    exact hinv.sid_key kv (hsub.subset hkv)
  · exact List.Nodup.sublist (hsub.map Prod.fst) hinv.skeys
  · intro kv hkv
    exact hinv.amt_pos kv (hsub.subset hkv)
  · exact hinv.uniq.sublist hsub
  · intro kv hkv
    rw [hkeys]
    exact hinv.refInt kv (hsub.subset hkv)
  · intro kv hkv
    rcases List.mem_append.mp hkv with hkv | hkv
    · have hk1 : ¬kv.1 = pid := h1 kv hkv
      have hkm : kv ∈ st.projects := hmemold kv (Or.inl hkv)
      have hkidne : ¬kv.2.id = pid := by
        rw [hinv.pid_key kv hkm]
        exact hk1
      have hps : projSignals (s1 ++ s2) kv.2.id = projSignals st.signals kv.2.id := by
        rw [projSignals_append2, hdec2, projSignals_mid]
        rw [if_neg (by simp [hEpid]; exact fun he => hkidne he.symm)]
        simp
      rw [hps]
      exact hinv.counters kv hkm
    · rcases List.mem_cons.mp hkv with hkv | hkv
      · rw [hkv]
        show Q.supportCount = ((projSignals (s1 ++ s2) Q.id).length : Int) ∧
          Q.totalSignal = ((projSignals (s1 ++ s2) Q.id).map (·.amount)).sum
        rw [hQid, projSignals_append2]
        obtain ⟨hsc2, hts2⟩ := hPc
        rw [hPs] at hsc2 hts2
        have hn1 : 0 ≤ ((projSignals s1 pid).map (·.amount)).sum :=
          projSignals_sum_nonneg pid hpos1
        have hn2 : 0 ≤ ((projSignals s2 pid).map (·.amount)).sum :=
          projSignals_sum_nonneg pid hpos2
        constructor
        · rw [hQsc, hsc2]
          simp
          omega
        · rw [hQts, hts2]
          simp
          omega
      · have hk1 : ¬kv.1 = pid := h2 kv hkv
        have hkm : kv ∈ st.projects := hmemold kv (Or.inr hkv)
        have hkidne : ¬kv.2.id = pid := by
          rw [hinv.pid_key kv hkm]
          exact hk1
        have hps : projSignals (s1 ++ s2) kv.2.id = projSignals st.signals kv.2.id := by
          rw [projSignals_append2, hdec2, projSignals_mid]
          rw [if_neg (by simp [hEpid]; exact fun he => hkidne he.symm)]
          simp
        rw [hps]
        exact hinv.counters kv hkm

theorem signalAmount_ge_one (a : Option (Option Int)) : 1 ≤ signalAmount a :=
  le_max_left 1 _

theorem signalAmount_le_100 (a : Option (Option Int)) : signalAmount a ≤ 100 := by
  unfold signalAmount
  omega

theorem step_inv {st st2 : RegState} (hinv : StoreInv st) (hstep : Step st st2) :
    StoreInv st2 := by
  cases hstep with
  | createP isAddr stx fid now body hfresh hok =>
    cases hn : truthyS body.name with
    | none => simp [createProject, isOkR, hn] at hok
    | some nm =>
      cases ho : truthyS body.owner with
      | none => simp [createProject, isOkR, hn, ho] at hok
      | some owner =>
        cases hia : isAddr owner with
        | false => simp [createProject, isOkR, hn, ho, hia] at hok
        | true =>
          simp only [createProject, hn, ho, hia, Bool.not_true, Bool.false_eq_true,
            if_false]
          exact inv_insert_project hinv hfresh rfl rfl rfl
  | updateP stx pid body now hok =>
    cases hg : mapGet st.projects pid with
    | none => simp [updateProject, isOkR, hg] at hok
    | some project =>
      cases hom : ownerMismatch body.owner project.owner with
      | true => simp [updateProject, isOkR, hg, hom] at hok
      | false =>
        simp only [updateProject, hg, hom, Bool.false_eq_true, if_false]
        exact inv_update_entry hinv hg rfl rfl rfl
  | deleteP stx pid body hok =>
    cases hg : mapGet st.projects pid with
    | none => simp [deleteProject, isOkR, hg] at hok
    | some project =>
      cases hom : ownerMismatch body.owner project.owner with
      | true => simp [deleteProject, isOkR, hg, hom] at hok
      | false =>
        simp only [deleteProject, hg, hom, Bool.false_eq_true, if_false]
        exact inv_delete_project hinv hg
  | signalUp isAddr stx pid fid now body hfresh hok =>
    cases hg : mapGet st.projects pid with
    | none => simp [postSignal, isOkR, hg] at hok
    | some project =>
      cases ha : truthyS body.address with
      | none => simp [postSignal, isOkR, hg, ha] at hok
      | some address =>
        cases hia : isAddr address with
        | false => simp [postSignal, isOkR, hg, ha, hia] at hok
        | true =>
          cases hf : (values st.signals).find?
              (fun s => s.projectId == project.id && s.address == jsToLower address) with
          | none =>
            simp only [postSignal, hg, ha, hia, hf, Bool.not_true, Bool.false_eq_true,
              if_false]
            have hnone : ∀ s ∈ values st.signals,
                ¬(s.projectId = project.id ∧ s.address = jsToLower address) := by
              intro s hs hcon
              have hcf := List.find?_eq_none.mp hf s hs
              simp [hcon.1, hcon.2] at hcf
            exact inv_new_signal hinv hg hfresh hnone rfl rfl rfl
              (signalAmount_ge_one _) rfl rfl rfl
          | some existing =>
            simp only [postSignal, hg, ha, hia, hf, Bool.not_true, Bool.false_eq_true,
              if_false]
            have hEmem := List.mem_of_find?_eq_some hf
            have hpred := List.find?_some hf
            have hEpid : existing.projectId = project.id := by
              simp only [Bool.and_eq_true, beq_iff_eq] at hpred
              exact hpred.1
            exact inv_accum_signal hinv hg hEmem hEpid rfl rfl rfl rfl
              (signalAmount_ge_one _) rfl rfl rfl
  | signalRm stx pid body hok =>
    cases hg : mapGet st.projects pid with
    | none => simp [removeSignal, isOkR, hg] at hok
    | some project =>
      cases ha : truthyS body.address with
      | none => simp [removeSignal, isOkR, hg, ha] at hok
      | some address =>
        cases hf : (values st.signals).find?
            (fun s => s.projectId == project.id && s.address == jsToLower address) with
        | none => simp [removeSignal, isOkR, hg, ha, hf] at hok
        | some existing =>
          simp only [removeSignal, hg, ha, hf]
          have hEmem := List.mem_of_find?_eq_some hf
          have hpred := List.find?_some hf
          have hEpid : existing.projectId = project.id := by
            simp only [Bool.and_eq_true, beq_iff_eq] at hpred
            exact hpred.1
          exact inv_remove_signal hinv hg hEmem hEpid rfl rfl rfl

theorem reachable_inv {st : RegState} (h : Reachable st) : StoreInv st := by
  induction h with
  | init =>
    exact ⟨by simp, by simp, by simp, by simp, by simp, by simp, by simp, by simp⟩
  | step h1 h2 ih => exact step_inv ih h2

/-! ### Sorting lemmas -/

theorem length_jsInsert (le : α → α → Bool) (x : α) (l : List α) :
    (jsInsert le x l).length = l.length + 1 := by
  induction l with
  | nil => rfl
  | cons y ys ih =>
    unfold jsInsert
    by_cases h : le x y
    · simp [h]
    · simp [h, ih]

theorem mem_jsInsert {le : α → α → Bool} {x a : α} {l : List α} :
    a ∈ jsInsert le x l ↔ a = x ∨ a ∈ l := by
  induction l with
  | nil => simp [jsInsert]
  | cons y ys ih =>
    unfold jsInsert
    by_cases h : le x y
    · simp [h, List.mem_cons]
    · simp [h, List.mem_cons, ih]
      tauto

theorem length_jsSortBy (le : α → α → Bool) (l : List α) :
    (jsSortBy le l).length = l.length := by
  induction l with
  | nil => rfl
  | cons x xs ih =>
    unfold jsSortBy
    rw [length_jsInsert, ih]
    simp

theorem mem_jsSortBy {le : α → α → Bool} {a : α} {l : List α} :
    a ∈ jsSortBy le l ↔ a ∈ l := by
  induction l with
  | nil => simp [jsSortBy]
  | cons x xs ih =>
    unfold jsSortBy
    rw [mem_jsInsert, ih, List.mem_cons]

theorem pairwise_jsInsert {le : α → α → Bool}
    (htrans : ∀ a b c, le a b = true → le b c = true → le a c = true)
    (htot : ∀ a b, le a b = true ∨ le b a = true)
    {x : α} {l : List α} (hp : l.Pairwise (fun a b => le a b = true)) :
    (jsInsert le x l).Pairwise (fun a b => le a b = true) := by
  induction l with
  | nil => simp [jsInsert]
  | cons y ys ih =>
    rw [List.pairwise_cons] at hp
    obtain ⟨hy, hys⟩ := hp
    unfold jsInsert
    by_cases h : le x y
    · rw [if_pos h, List.pairwise_cons]
      constructor
      · intro b hb
        rcases List.mem_cons.mp hb with hb | hb
        · rw [hb]; exact h
        · exact htrans x y b h (hy b hb)
      · rw [List.pairwise_cons]
        exact ⟨hy, hys⟩
    · rw [if_neg h, List.pairwise_cons]
      constructor
      · intro b hb
        rcases mem_jsInsert.mp hb with hb | hb
        · rw [hb]
          rcases htot x y with h1 | h1
          · exact absurd h1 h
          · exact h1
        · exact hy b hb
      · exact ih hys

theorem pairwise_jsSortBy {le : α → α → Bool}
    (htrans : ∀ a b c, le a b = true → le b c = true → le a c = true)
    (htot : ∀ a b, le a b = true ∨ le b a = true)
    (l : List α) :
    (jsSortBy le l).Pairwise (fun a b => le a b = true) := by
  induction l with
  | nil => simp [jsSortBy]
  | cons x xs ih =>
    unfold jsSortBy
    exact pairwise_jsInsert htrans htot ih

theorem jsSlice_sublist (l : List α) (s e : Int) : (jsSlice l s e).Sublist l := by
  unfold jsSlice
  exact ((l.drop _).take_sublist _).trans (l.drop_sublist _)

theorem mapGet_decomp_self {l1 l2 : KMap α} {k : String} {v : α}
    (h1 : ∀ kv ∈ l1, ¬kv.1 = k) :
    mapGet (l1 ++ (k, v) :: l2) k = some v := by
  unfold mapGet
  induction l1 with
  | nil => simp
  | cons hd tl ih =>
    have hne : (hd.1 == k) = false := by
      simpa using h1 hd (List.mem_cons_self hd tl)
    rw [List.cons_append, List.find?_cons, hne]
    exact ih (fun kv hkv => h1 kv (List.mem_cons_of_mem hd hkv))

theorem mapGet_mapSet_present {m : KMap α} {k : String} {v : α} (w : α)
    (hnd : (m.map Prod.fst).Nodup) (hm : (k, v) ∈ m) :
    mapGet (mapSet m k w) k = some w := by
  obtain ⟨l1, l2, hdec, h1, h2⟩ := kmap_decomp hnd hm
  rw [hdec, mapSet_decomp w h1 h2]
  exact mapGet_decomp_self h1

theorem mapGet_mapDelete_self (m : KMap α) (k : String) :
    mapGet (mapDelete m k) k = none := by
  unfold mapGet
  have hnone : (mapDelete m k).find? (fun kv => kv.1 == k) = none := by
    apply List.find?_eq_none.mpr
    intro kv hkv
    unfold mapDelete at hkv
    have hb := List.of_mem_filter hkv
    simpa using hb
  rw [hnone]
  rfl

theorem mem_mapSet_self (m : KMap α) (k : String) (v : α) :
    (k, v) ∈ mapSet m k v := by
  unfold mapSet
  by_cases h : m.any (fun kv => kv.1 == k) = true
  · rw [if_pos h]
    obtain ⟨kv, hkv, hpred⟩ := List.any_eq_true.mp h
    apply List.mem_map.mpr
    refine ⟨kv, hkv, ?_⟩
    rw [if_pos hpred]
  · rw [if_neg h]
    simp

/-! ### Reachability of the concrete witness states -/

theorem reachable_stW1 : Reachable stW1 :=
  Reachable.step Reachable.init
    (Step.createP isAddrW stW0 "p1" 0 bodyC (by decide) (by decide))

theorem reachable_stW2 : Reachable stW2 :=
  Reachable.step reachable_stW1
    (Step.signalUp isAddrW stW1 "p1" "s1" 1 sbody5 (by decide) (by decide))

theorem reachable_stW3 : Reachable stW3 :=
  Reachable.step reachable_stW2
    (Step.signalUp isAddrW stW2 "p1" "s2" 2 sbody3 (by decide) (by decide))

/-! ### Claims -/

/-- C1: in every reachable state of the stores, every project record in the
project store has `supportCount` equal to the number of live signal records
whose `projectId` is its identifier, and `totalSignal` equal to the sum of
`amount` over those same records.  Reachability is generated exactly by the
five mutating operations (project create, update, delete, signal upsert,
signal removal), so each of them preserves both equalities. -/
theorem c1_counters_invariant {st : RegState} (h : Reachable st) :
    ∀ kv ∈ st.projects,
      kv.2.supportCount = ((projSignals st.signals kv.2.id).length : Int) ∧
      kv.2.totalSignal = ((projSignals st.signals kv.2.id).map (·.amount)).sum :=
  (reachable_inv h).counters

theorem c1_counters_invariant_witness :
    PW3.supportCount = ((projSignals stW3.signals PW3.id).length : Int) ∧
    PW3.totalSignal = ((projSignals stW3.signals PW3.id).map (·.amount)).sum :=
  c1_counters_invariant reachable_stW3 ("p1", PW3) (by decide)

/-- C2: in every reachable state there is at most one live signal record per
(projectId, address) pair; concretely, a second successful signal from the
same address on the same project accumulates into the existing record: after
signaling amount 5 and then amount 3 from the same address, a single record
with amount 8 exists and the project keeps `supportCount` 1 with
`totalSignal` 8. -/
theorem c2_signal_unique_per_pair :
    (∀ st : RegState, Reachable st →
      st.signals.Pairwise
        (fun a b => ¬(a.2.projectId = b.2.projectId ∧ a.2.address = b.2.address))) ∧
    (isOkR (postSignal isAddrW stW1 "p1" "s1" 1 sbody5).1 = true ∧
     isOkR (postSignal isAddrW stW2 "p1" "s2" 2 sbody3).1 = true ∧
     stW3.signals = [("s1", ⟨"s1", "p1", "0xccc", 8, none, 1, some 2⟩)] ∧
     (mapGet stW3.projects "p1").map (·.supportCount) = some 1 ∧
     (mapGet stW3.projects "p1").map (·.totalSignal) = some 8) := by
  constructor
  · intro st h
    exact (reachable_inv h).uniq
  · exact ⟨by decide, by decide, by decide, by decide, by decide⟩

theorem c2_signal_unique_per_pair_witness :
    stW3.signals.Pairwise
      (fun a b => ¬(a.2.projectId = b.2.projectId ∧ a.2.address = b.2.address)) :=
  c2_signal_unique_per_pair.1 stW3 reachable_stW3

theorem getSupporters_signals_sub {isAddr : String → Bool} {st : RegState} {addr : String}
    {resp : SupportersResp} (h : getSupporters isAddr st addr = .ok resp) :
    ∀ a ∈ resp.signals, a.sig ∈ values st.signals := by
  unfold getSupporters at h
  cases hia : isAddr addr with
  | false => rw [hia] at h; simp at h
  | true =>
    rw [hia] at h
    simp only [Bool.not_true, Bool.false_eq_true, if_false, Except.ok.injEq] at h
    intro a ha
    rw [← h] at ha
    have ha2 := mem_jsSortBy.mp ha
    obtain ⟨s, hs, hse⟩ := List.mem_map.mp ha2
    rw [← hse]
    exact List.mem_of_mem_filter hs

/-- C3: a successful project deletion removes the project record and every
signal record referencing it; afterwards a get-by-id for that project
returns the 404 not-found error, and a supporter aggregation for any
address includes no signal referencing the deleted project. -/
theorem c3_delete_cascades {st : RegState} {pid : String} {body : DeleteBody}
    (hreach : Reachable st)
    (hok : isOkR (deleteProject st pid body).1 = true) :
    mapGet (deleteProject st pid body).2.projects pid = none ∧
    (∀ kv ∈ (deleteProject st pid body).2.signals, ¬kv.2.projectId = pid) ∧
    getProject (deleteProject st pid body).2 pid = .error ⟨404, "Project not found"⟩ ∧
    (∀ (isAddr : String → Bool) (addr : String) (resp : SupportersResp),
      getSupporters isAddr (deleteProject st pid body).2 addr = .ok resp →
      ∀ a ∈ resp.signals, ¬a.sig.projectId = pid) := by
  have hinv := reachable_inv hreach
  cases hg : mapGet st.projects pid with
  | none => simp [deleteProject, isOkR, hg] at hok
  | some project =>
    have hpk : project.id = pid := hinv.pid_key (pid, project) (mapGet_mem hg)
    cases hom : ownerMismatch body.owner project.owner with
    | true => simp [deleteProject, isOkR, hg, hom] at hok
    | false =>
      have hred : (deleteProject st pid body).2 =
          { projects := mapDelete st.projects project.id,
            signals := st.signals.filter (fun kv => !(kv.2.projectId == project.id)) } := by
        simp [deleteProject, hg, hom]
      rw [hred]
      have hgp : mapGet (mapDelete st.projects project.id : KMap Project) pid = none := by
        rw [hpk]
        exact mapGet_mapDelete_self _ _
      have hsigs : ∀ kv ∈ st.signals.filter (fun kv => !(kv.2.projectId == project.id)),
          ¬kv.2.projectId = pid := by
        intro kv hkv
        have hb := List.of_mem_filter hkv
        rw [← hpk]
        simpa using hb
      refine ⟨hgp, hsigs, ?_, ?_⟩
      · simp [getProject, hgp]
      · intro isAddr addr resp hresp a ha
        have hmem := getSupporters_signals_sub hresp a ha
        obtain ⟨kv, hkv, hkve⟩ := mem_values_iff.mp hmem
        rw [← hkve]
        exact hsigs kv hkv

theorem c3_delete_cascades_witness :
    mapGet (deleteProject stW3 "p1" ⟨none⟩).2.projects "p1" = none ∧
    getProject (deleteProject stW3 "p1" ⟨none⟩).2 "p1" = .error ⟨404, "Project not found"⟩ := by
  have h := c3_delete_cascades reachable_stW3
    (show isOkR (deleteProject stW3 "p1" ⟨none⟩).1 = true by decide)
  exact ⟨h.1, h.2.2.1⟩

/-- C4: on every successful signal upsert the amount written (for a fresh
signal) or added (to an existing signal and to the project totalSignal) is
the parsed input amount clamped to [1,100], with 1 used when the input is
absent or unparseable; in particular an input of 200 contributes exactly
100. -/
theorem c4_amount_clamped {isAddr : String → Bool} {st : RegState} {pid fid : String}
    {now : Int} {body : SignalBody} {project : Project} {address : String}
    (hreach : Reachable st)
    (hg : mapGet st.projects pid = some project)
    (ha : truthyS body.address = some address)
    (hia : isAddr address = true) :
    (∀ o : Option (Option Int), signalAmount o = specClampAmount o) ∧
    signalAmount (some (some 200)) = 100 ∧
    (1 ≤ signalAmount body.amount ∧ signalAmount body.amount ≤ 100) ∧
    isOkR (postSignal isAddr st pid fid now body).1 = true ∧
    (mapGet (postSignal isAddr st pid fid now body).2.projects pid).map (·.totalSignal)
      = some (project.totalSignal + signalAmount body.amount) ∧
    (∀ E, (values st.signals).find?
        (fun s => s.projectId == project.id && s.address == jsToLower address) = some E →
      ∃ s ∈ values (postSignal isAddr st pid fid now body).2.signals,
        s.id = E.id ∧ s.amount = E.amount + signalAmount body.amount) ∧
    ((values st.signals).find?
        (fun s => s.projectId == project.id && s.address == jsToLower address) = none →
      ∃ s ∈ values (postSignal isAddr st pid fid now body).2.signals,
        s.id = fid ∧ s.amount = signalAmount body.amount) := by
  have hinv := reachable_inv hreach
  have hpmem := mapGet_mem hg
  have hpk : project.id = pid := hinv.pid_key (pid, project) hpmem
  have hclamp : ∀ o : Option (Option Int), signalAmount o = specClampAmount o := by
    intro o
    match o with
    | none => rfl
    | some none => rfl
    | some (some n) =>
      simp only [signalAmount, specClampAmount, parsedOr]
      by_cases hn : n = 0
      · subst hn
        decide
      · rw [if_neg hn]
  refine ⟨hclamp, by decide, ⟨signalAmount_ge_one _, signalAmount_le_100 _⟩, ?_, ?_, ?_, ?_⟩
  · cases hf : (values st.signals).find?
        (fun s => s.projectId == project.id && s.address == jsToLower address) with
    | some existing => simp [postSignal, hg, ha, hia, hf, isOkR]
    | none => simp [postSignal, hg, ha, hia, hf, isOkR]
  · cases hf : (values st.signals).find?
        (fun s => s.projectId == project.id && s.address == jsToLower address) with
    | some existing =>
      have hred : (postSignal isAddr st pid fid now body).2.projects = mapSet st.projects
          project.id
          { project with totalSignal := project.totalSignal + signalAmount body.amount } := by
        simp [postSignal, hg, ha, hia, hf]
      rw [hred, hpk, mapGet_mapSet_present _ hinv.pkeys hpmem]
      rfl
    | none =>
      have hred : (postSignal isAddr st pid fid now body).2.projects = mapSet st.projects
          project.id
          { project with
            supportCount := project.supportCount + 1,
            totalSignal := project.totalSignal + signalAmount body.amount } := by
        simp [postSignal, hg, ha, hia, hf]
      rw [hred, hpk, mapGet_mapSet_present _ hinv.pkeys hpmem]
      rfl
  · intro E hfE
    have hred : (postSignal isAddr st pid fid now body).2.signals =
        mapSet st.signals E.id
          { E with
            amount := E.amount + signalAmount body.amount,
            message := match truthyS body.message with
              | some m => some m
              | none => E.message,
            updatedAt := some now } := by
      simp [postSignal, hg, ha, hia, hfE]
    rw [hred]
    refine ⟨{ E with
        amount := E.amount + signalAmount body.amount,
        message := match truthyS body.message with
          | some m => some m
          | none => E.message,
        updatedAt := some now }, ?_, rfl, rfl⟩
    exact mem_values_iff.mpr ⟨_, mem_mapSet_self _ _ _, rfl⟩
  · intro hf
    have hred : (postSignal isAddr st pid fid now body).2.signals =
        mapSet st.signals fid
          ⟨fid, project.id, jsToLower address, signalAmount body.amount,
            truthyS body.message, now, none⟩ := by
      simp [postSignal, hg, ha, hia, hf]
    rw [hred]
    refine ⟨⟨fid, project.id, jsToLower address, signalAmount body.amount,
      truthyS body.message, now, none⟩, ?_, rfl, rfl⟩
    exact mem_values_iff.mpr ⟨_, mem_mapSet_self _ _ _, rfl⟩

theorem c4_amount_clamped_witness :
    signalAmount (some (some 200)) = 100 ∧
    (mapGet (postSignal isAddrW stW1 "p1" "s9" 3 sbody200).2.projects "p1").map
      (·.totalSignal) = some (P1.totalSignal + signalAmount (some (some 200))) := by
  have h := @c4_amount_clamped isAddrW stW1 "p1" "s9" 3 sbody200 P1 "0xCCC"
    reachable_stW1 (by decide) (by decide) (by decide)
  exact ⟨h.2.1, h.2.2.2.2.1⟩

theorem length_sortResults (sq : Option String) (l : List Project) :
    (sortResults sq l).length = l.length := by
  unfold sortResults
  split <;> rw [length_jsSortBy]

theorem jsSlice_page_bounds (l : List α) (s c : Int) (hc : 1 ≤ c) :
    ((jsSlice l s (s + c)).length : Int) ≤ c ∧
    s + ((jsSlice l s (s + c)).length : Int) ≤ max s (l.length : Int) := by
  simp only [jsSlice, List.length_take, List.length_drop]
  by_cases hs : s < 0
  · rw [if_pos hs]
    by_cases he : s + c < 0
    · rw [if_pos he]
      constructor <;> omega
    · rw [if_neg he]
      constructor <;> omega
  · rw [if_neg hs, if_neg (show ¬s + c < 0 by omega)]
    constructor <;> omega

/-- C5 (amended): for every list-projects query whose parsed limit is
positive (or absent/zero/NaN, defaulting to 50), and for every offset
input, the returned page has at most min(limit, 100) entries, with the
limit defaulting to 50 and capped at 100, and
offset + returned-count <= max(offset, total).  The stronger bound
offset + returned-count <= total claimed originally fails when the offset
exceeds the pre-pagination total, and the limit bound fails for a negative
parsed limit. -/
theorem c5_pagination_bounds (st : RegState) (q : ListQuery)
    (hlim : 1 ≤ parsedOr q.limit 50) :
    ((listProjects st q).projects.length : Int) ≤ min (parsedOr q.limit 50) 100 ∧
    (listProjects st q).offset + ((listProjects st q).projects.length : Int) ≤
      max (listProjects st q).offset (listProjects st q).total := by
  have hc : (1 : Int) ≤ min (parsedOr q.limit 50) 100 := by omega
  obtain ⟨h1, h2⟩ := jsSlice_page_bounds (sortResults q.sort (listFiltered st q))
    (parsedOr q.offset 0) (min (parsedOr q.limit 50) 100) hc
  rw [length_sortResults] at h2
  exact ⟨h1, h2⟩

/-- C5 counterexample: with a single stored project, a query with offset 5
violates the claimed bound offset + returned-count <= total, and a query
with parsed limit -5 violates returned-count <= min(limit, 100). -/
theorem c5_pagination_counterexample :
    ¬((listProjects stW1 q5a).offset + ((listProjects stW1 q5a).projects.length : Int) ≤
      (listProjects stW1 q5a).total) ∧
    ¬(((listProjects stW1 q5b).projects.length : Int) ≤
      min (parsedOr q5b.limit 50) 100) := by
  constructor
  · decide
  · decide

theorem c5_pagination_bounds_witness :
    ((listProjects stW1 q5c).projects.length : Int) ≤ min (parsedOr q5c.limit 50) 100 ∧
    (listProjects stW1 q5c).offset + ((listProjects stW1 q5c).projects.length : Int) ≤
      max (listProjects stW1 q5c).offset (listProjects stW1 q5c).total :=
  c5_pagination_bounds stW1 q5c (by decide)

/-- C6 (amended): for every update request on an existing project that
supplies a non-empty owner value whose lowercase form differs from the
stored owner, the update fails with the 403 authorization error and the
stores are returned unchanged (no field overwritten, updatedAt not
stamped).  The non-empty qualification is required: an empty-string owner
value is falsy in JavaScript, so the ownership check is skipped and the
update proceeds. -/
theorem c6_update_owner_mismatch {st : RegState} {pid : String} {body : UpdateBody}
    {now : Int} {project : Project} {o : String}
    (hg : mapGet st.projects pid = some project)
    (ho : body.owner = some o) (hne : o ≠ "")
    (hmow : jsToLower o ≠ project.owner) :
    updateProject st pid body now = (.error ⟨403, "Not project owner"⟩, st) := by
  have hom : ownerMismatch body.owner project.owner = true := by
    rw [ho]
    unfold ownerMismatch truthyS
    simp [hne, hmow]
  simp [updateProject, hg, hom]

/-- C6 counterexample: an update request on project `p1` (stored owner
`0xbbb`) supplying the empty-string owner value, which differs
case-insensitively from the stored owner, succeeds anyway: the name field
is overwritten and updatedAt is stamped, instead of failing with an
authorization error. -/
theorem c6_update_counterexample :
    (some "" : Option String) ≠ none ∧
    jsToLower "" ≠ P1.owner ∧
    isOkR (updateProject stW1 "p1" ⟨some "Hacked", none, none, none, none, none, some ""⟩ 9).1
      = true ∧
    (mapGet (updateProject stW1 "p1"
        ⟨some "Hacked", none, none, none, none, none, some ""⟩ 9).2.projects "p1").map
      (·.name) = some "Hacked" ∧
    (mapGet (updateProject stW1 "p1"
        ⟨some "Hacked", none, none, none, none, none, some ""⟩ 9).2.projects "p1").map
      (·.updatedAt) = some 9 := by
  refine ⟨by decide, by decide, by decide, by decide, by decide⟩

theorem c6_update_owner_mismatch_witness :
    updateProject stW1 "p1" ⟨some "Hacked", none, none, none, none, none, some "0xZZZ"⟩ 9 =
      (.error ⟨403, "Not project owner"⟩, stW1) :=
  @c6_update_owner_mismatch stW1 "p1"
    ⟨some "Hacked", none, none, none, none, none, some "0xZZZ"⟩ 9 P1 "0xZZZ"
    (by decide) (by decide) (by decide) (by decide)

/-- C7: the allow-list cache serves the cached set without any external
fetch while it is populated and younger than the 5 minute time-to-live; on
a fetch failure it serves the previous cached set unchanged when one exists
(even if expired) and the empty set otherwise.  The function is total, so a
fetch failure never surfaces to the caller as an error. -/
theorem c7_whitelist_cache :
    (∀ (wst : WhitelistState) (now : Int) (fetched : Option (List WlEntry))
      (c : List String), wst.cache = some c → now - wst.cacheTime < WL_CACHE_TTL →
      fetchWhitelist wst now fetched = (c, wst, false)) ∧
    (∀ (wst : WhitelistState) (now : Int) (c : List String), wst.cache = some c →
      (fetchWhitelist wst now none).1 = c ∧ (fetchWhitelist wst now none).2.1 = wst) ∧
    (∀ (wst : WhitelistState) (now : Int), wst.cache = none →
      fetchWhitelist wst now none = ([], wst, true)) := by
  refine ⟨?_, ?_, ?_⟩
  · intro wst now fetched c hc httl
    simp [fetchWhitelist, hc, httl]
  · intro wst now c hc
    by_cases httl : now - wst.cacheTime < WL_CACHE_TTL
    · simp [fetchWhitelist, hc, httl]
    · simp [fetchWhitelist, hc, httl]
  · intro wst now hc
    simp [fetchWhitelist, hc]

theorem c7_whitelist_cache_witness :
    fetchWhitelist ⟨some ["0xaaa"], 0⟩ 1 none = (["0xaaa"], ⟨some ["0xaaa"], 0⟩, false) ∧
    (fetchWhitelist ⟨some ["0xaaa"], 0⟩ 999999999 none).1 = ["0xaaa"] ∧
    fetchWhitelist ⟨none, 0⟩ 1 none = ([], ⟨none, 0⟩, true) := by
  refine ⟨?_, ?_, ?_⟩
  · exact c7_whitelist_cache.1 ⟨some ["0xaaa"], 0⟩ 1 none ["0xaaa"] rfl (by decide)
  · exact (c7_whitelist_cache.2.1 ⟨some ["0xaaa"], 0⟩ 999999999 ["0xaaa"] rfl).1
  · exact c7_whitelist_cache.2.2 ⟨none, 0⟩ 1 rfl

theorem jsSlice_zero_le (l : List α) (n : Int) (hn : 0 ≤ n) :
    ((jsSlice l 0 n).length : Int) ≤ n := by
  simp only [jsSlice, List.length_take, List.length_drop]
  rw [if_neg (show ¬(0 : Int) < 0 by omega), if_neg (show ¬n < 0 by omega)]
  omega

theorem jsSlice_zero_all (l : List α) (n : Int) (hn : (l.length : Int) ≤ n) :
    jsSlice l 0 n = l := by
  simp only [jsSlice]
  rw [if_neg (show ¬(0 : Int) < 0 by omega), if_neg (show ¬n < 0 by omega)]
  rw [show min (0 : Int) (l.length : Int) = 0 from by omega,
    min_eq_right hn]
  simp

theorem jsSlice_zero_len_eq (l : List α) (n : Int) (hn : 0 ≤ n)
    (hlt : n ≤ (l.length : Int)) :
    ((jsSlice l 0 n).length : Int) = n := by
  simp only [jsSlice, List.length_take, List.length_drop]
  rw [if_neg (show ¬(0 : Int) < 0 by omega), if_neg (show ¬n < 0 by omega)]
  omega

/-- C8 (amended): for every search query of length at least 2 and a
nonnegative parsed limit (default 20), the handler succeeds, every returned
project is a stored project matched by the code predicate (case-insensitive
on name and description, but raw stored tag against the lowercased query),
the results are sorted by support count descending, at most limit are
returned, and when fewer than limit are returned every matching stored
project is included.  The original claim of a fully case-insensitive tag
match fails: tag comparison lowercases only the query. -/
theorem c8_search {st : RegState} {qs : String} {limit : Option (Option Int)}
    (hq : 2 ≤ qs.length) (hl : 0 ≤ parsedOr limit 20) :
    ∃ res, searchProjects st (some qs) limit = .ok res ∧
      (∀ p ∈ res, p ∈ values st.projects ∧ searchMatches (jsToLower qs) p = true) ∧
      res.Pairwise (fun a b => b.supportCount ≤ a.supportCount) ∧
      (res.length : Int) ≤ parsedOr limit 20 ∧
      ((res.length : Int) < parsedOr limit 20 →
        ∀ p ∈ values st.projects, searchMatches (jsToLower qs) p = true → p ∈ res) := by
  have hred : searchProjects st (some qs) limit =
      .ok (jsSlice (jsSortBy (fun a b => decide (b.supportCount ≤ a.supportCount))
        ((values st.projects).filter (searchMatches (jsToLower qs)))) 0
        (parsedOr limit 20)) := by
    simp only [searchProjects]
    rw [if_neg (show ¬qs.length < 2 by omega)]
  refine ⟨_, hred, ?_, ?_, ?_, ?_⟩
  · intro p hp
    have hp2 : p ∈ jsSortBy (fun a b => decide (b.supportCount ≤ a.supportCount))
        ((values st.projects).filter (searchMatches (jsToLower qs))) :=
      (jsSlice_sublist _ _ _).subset hp
    have hp3 := mem_jsSortBy.mp hp2
    exact ⟨List.mem_of_mem_filter hp3, List.of_mem_filter hp3⟩
  · have hsorted := @pairwise_jsSortBy Project
      (fun a b : Project => decide (b.supportCount ≤ a.supportCount))
      (by intro a b c h1 h2; simp at h1 h2 ⊢; omega)
      (by intro a b; simp; omega)
      ((values st.projects).filter (searchMatches (jsToLower qs)))
    have hs2 := hsorted.sublist (jsSlice_sublist _ 0 (parsedOr limit 20))
    exact hs2.imp (fun h => by simpa using h)
  · exact jsSlice_zero_le _ _ hl
  · intro hlen p hp hmatch
    by_cases hL : ((jsSortBy (fun a b : Project => decide (b.supportCount ≤ a.supportCount))
        ((values st.projects).filter (searchMatches (jsToLower qs)))).length : Int) ≤
        parsedOr limit 20
    · rw [jsSlice_zero_all _ _ hL]
      exact mem_jsSortBy.mpr (List.mem_filter.mpr ⟨hp, hmatch⟩)
    · exfalso
      have := jsSlice_zero_len_eq
        (jsSortBy (fun a b : Project => decide (b.supportCount ≤ a.supportCount))
          ((values st.projects).filter (searchMatches (jsToLower qs))))
        (parsedOr limit 20) hl (by omega)
      omega

/-- C8 counterexample: the stored project `P8` carries the tag `ETH`; the
query `ET` matches it case-insensitively as a tag substring, satisfying the
claimed match predicate, yet the search returns the empty list because the
code lowercases only the query and `ETH` does not contain `et`. -/
theorem c8_search_counterexample :
    2 ≤ ("ET" : String).length ∧
    P8 ∈ values st8.projects ∧
    specSearchMatches "ET" P8 = true ∧
    searchProjects st8 (some "ET") none = .ok [] := by
  refine ⟨by decide, by decide, by decide, by decide⟩

theorem c8_search_witness :
    ∃ res, searchProjects st8 (some "aa") none = .ok res ∧
      (∀ p ∈ res, p ∈ values st8.projects ∧ searchMatches (jsToLower "aa") p = true) ∧
      res.Pairwise (fun a b => b.supportCount ≤ a.supportCount) ∧
      (res.length : Int) ≤ parsedOr none 20 ∧
      ((res.length : Int) < parsedOr none 20 →
        ∀ p ∈ values st8.projects, searchMatches (jsToLower "aa") p = true → p ∈ res) :=
  c8_search (by decide) (by decide)

theorem truthyS_ne_empty {x : Option String} {s : String}
    (h : truthyS x = some s) : s ≠ "" := by
  cases x with
  | none => simp [truthyS] at h
  | some t =>
    simp only [truthyS] at h
    by_cases ht : t = ""
    · rw [ht] at h
      simp at h
    · rw [if_neg ht] at h
      have hts : t = s := by simpa using h
      rw [← hts]
      exact ht

theorem truthyS_some_of_ne {s : String} (h : s ≠ "") : truthyS (some s) = some s := by
  simp only [truthyS]
  rw [if_neg h]

theorem truthyS_jsOrS (x y : Option String) :
    truthyS (jsOrS x y) = match truthyS x with
      | some s => some s
      | none => truthyS y := by
  unfold jsOrS
  cases hx : truthyS x with
  | none => rfl
  | some s =>
    show truthyS (some s) = some s
    exact truthyS_some_of_ne (truthyS_ne_empty hx)

theorem gateCandidate_eq (b : CreateBody) :
    truthyS (gateCandidateRaw b) = firstNonEmptyField b := by
  unfold gateCandidateRaw firstNonEmptyField
  simp only [truthyS_jsOrS, List.findSome?_cons, List.findSome?_nil]
  cases truthyS b.address <;> cases truthyS b.creator <;> cases truthyS b.participant <;>
    cases truthyS b.sender <;> cases truthyS b.«from» <;> rfl

theorem createProject_owner {isAddr : String → Bool} {st : RegState} {fid : String}
    {now : Int} {body : CreateBody} {nm ow : String}
    (hnm : truthyS body.name = some nm) (how : truthyS body.owner = some ow)
    (hia : isAddr ow = true) :
    isOkR (createProject isAddr st fid now body).1 = true ∧
    ∀ p, (createProject isAddr st fid now body).1 = .ok p → p.owner = jsToLower ow := by
  constructor
  · simp [createProject, hnm, how, hia, isOkR]
  · intro p hp
    simp only [createProject, hnm, how, hia, Bool.not_true, Bool.false_eq_true,
      if_false] at hp
    rw [Except.ok.injEq] at hp
    rw [← hp]

/-- C9: the accept/reject decision of the whitelist gate on the project
routes is a function of the first non-empty value among the body fields
address, creator, participant, sender, from (and the trailing address
fallback) only, never of any other part of the payload; consequently
project creation can succeed with an owner address that is not on the
allow-list, provided the extracted candidate is allow-listed and the owner
is syntactically valid. -/
theorem c9_gate_candidate_only :
    (∀ (wl : List String) (b1 b2 : CreateBody),
      firstNonEmptyField b1 = firstNonEmptyField b2 →
      requireWhitelistCheck wl b1 = requireWhitelistCheck wl b2) ∧
    (∀ (isAddr : String → Bool) (wl : List String) (st : RegState) (fid : String)
      (now : Int) (body : CreateBody) (cand nm ow : String),
      firstNonEmptyField body = some cand → wl.contains (jsToLower cand) = true →
      truthyS body.name = some nm → truthyS body.owner = some ow →
      isAddr ow = true → wl.contains (jsToLower ow) = false →
      isOkR (gatedCreateProject isAddr wl st fid now body).1 = true ∧
      ∀ p, (gatedCreateProject isAddr wl st fid now body).1 = .ok p →
        p.owner = jsToLower ow ∧ wl.contains p.owner = false) := by
  constructor
  · intro wl b1 b2 h
    unfold requireWhitelistCheck
    rw [gateCandidate_eq, gateCandidate_eq, h]
  · intro isAddr wl st fid now body cand nm ow hcand hwl hnm how hia hnw
    have hgate : requireWhitelistCheck wl body = none := by
      unfold requireWhitelistCheck
      rw [gateCandidate_eq, hcand]
      have hwl2 : jsToLower cand ∈ wl := by simpa using hwl
      simp [hwl2]
    have hred : gatedCreateProject isAddr wl st fid now body =
        createProject isAddr st fid now body := by
      simp [gatedCreateProject, hgate]
    rw [hred]
    obtain ⟨h1, h2⟩ := createProject_owner hnm how hia
    refine ⟨h1, fun p hp => ⟨h2 p hp, ?_⟩⟩
    rw [h2 p hp]
    exact hnw

theorem c9_gate_candidate_only_witness :
    isOkR (gatedCreateProject isAddrW ["0xaaa"] stW0 "p1" 0 bodyC).1 = true ∧
    P1.owner = jsToLower "0xBBB" ∧
    (["0xaaa"] : List String).contains P1.owner = false := by
  have h := c9_gate_candidate_only.2 isAddrW ["0xaaa"] stW0 "p1" 0 bodyC
    "0xAAA" "Foo" "0xBBB" (by decide) (by decide) (by decide) (by decide)
    (by decide) (by decide)
  exact ⟨h.1, (h.2 P1 (by decide)).1, (h.2 P1 (by decide)).2⟩

/-- C10: signal removal performs no syntactic validation of the supplied
address: for every existing project and every non-empty address string,
when no live signal matches the lowercased address the handler returns the
404 signal-not-found error with the stores unchanged, and it never returns
the invalid-address validation error, whereas signal upsert with the same
malformed non-empty address fails with the 400 invalid-address error. -/
theorem c10_remove_no_validation {st : RegState} {pid : String} {project : Project}
    {addr : String}
    (hg : mapGet st.projects pid = some project)
    (hne : addr ≠ "")
    (hf : (values st.signals).find?
      (fun s => s.projectId == project.id && s.address == jsToLower addr) = none) :
    removeSignal st pid ⟨some addr⟩ = (.error ⟨404, "Signal not found"⟩, st) ∧
    (∀ (isAddr : String → Bool) (fid : String) (now : Int)
      (amount : Option (Option Int)) (message : Option String),
      isAddr addr = false →
      postSignal isAddr st pid fid now ⟨some addr, amount, message⟩ =
        (.error ⟨400, "Invalid address"⟩, st)) := by
  have ht : truthyS (some addr) = some addr := truthyS_some_of_ne hne
  constructor
  · simp [removeSignal, hg, ht, hf]
  · intro isAddr fid now amount message hia
    simp [postSignal, hg, ht, hia]

theorem c10_remove_no_validation_witness :
    removeSignal stW1 "p1" ⟨some "not-an-address"⟩ =
      (.error ⟨404, "Signal not found"⟩, stW1) ∧
    postSignal isAddrW stW1 "p1" "s9" 5 ⟨some "not-an-address", none, none⟩ =
      (.error ⟨400, "Invalid address"⟩, stW1) := by
  have h := @c10_remove_no_validation stW1 "p1" P1 "not-an-address"
    (by decide) (by decide) (by decide)
  exact ⟨h.1, h.2 isAddrW "s9" 5 none none (by decide)⟩
